import Mathlib

/-!
Verification development for the attached-rule-group publication engine
(`src/npf/config/pmf_att_rlgrp.c`) of the vyatta-dataplane repository.

The file shallowly embeds the subsystem:

* the per-group state (`GState`): publication / attachment / deferral flags,
  the recorded address family, the attribute-rule flag `PMF_EARGF_RULE_ATTR`,
  the rule collection, the counter group, and the `earg_num_rules` counter;
* the hardware (FAL) notification layer as a queue of `HwEv` events;
* the operations of the source file: `pmf_arlg_rl_attr_check`,
  `pmf_arlg_rl_add` / `pmf_arlg_rl_chg` / `pmf_arlg_rl_del`, the group
  attach/detach event handler, and `pmf_arlg_commit`;
* the op-mode commands `pmf_arlg_cmd_show_counters` and
  `pmf_arlg_cmd_clear_counters`, and the `pmf_cntr` counter registry.

The `gpc_*` database/counter helpers called by the file live elsewhere in the
repository (not in the sources provided); those definitions are modelled from
the specification and are marked `Modelled from the spec:` in their doc
comments.  Machine integers that can wrap (`uint32_t earg_num_rules`,
`uint16_t eark_refcount`) are modelled as `Nat` with explicit `% 2^32`
(resp. `% 2^16`) arithmetic.
-/

namespace PmfArlg

/-- Hardware/offload (FAL) notification events.  Modelled from the spec:
"Hardware/offload layer (FAL): one-way notification calls — group
create/modify/delete/attach/detach, rule create/delete, counter
create/delete/read/clear". -/
inductive HwEv : Type
  | grpCreate
  | grpModify
  | grpDelete
  | grpAttach
  | grpDetach
  | ruleCreate (idx : Nat)
  | ruleDelete (idx : Nat)
  | cntrCreate (nm : String)
  | cntrDelete (nm : String)
  deriving DecidableEq, Repr

/-- The bits of a rule summary (`pp_summary`) that this subsystem inspects:
counter reference/definition flags and the pass/drop action flags.
(`PMF_RAS_COUNT_REF`, `PMF_RAS_COUNT_DEF`, `PMF_RAS_COUNT_DEF_PASS`,
`PMF_RAS_COUNT_DEF_DROP`, `PMF_RAS_PASS`, `PMF_RAS_DROP`.) -/
structure RuleSummary : Type where
  countRef : Bool
  countDef : Bool
  countDefPass : Bool
  countDefDrop : Bool
  actPass : Bool
  actDrop : Bool
  deriving DecidableEq, Repr

/-- `PMF_SUMMARY_COUNT_DEF_NAMED_FLAGS`: the named (auto-per-action)
counter-definition flags, i.e. the pass/drop definition bits. -/
def RuleSummary.namedFlags (s : RuleSummary) : Bool :=
  s.countDefPass || s.countDefDrop

/-- A parsed rule (`struct pmf_rule`): its summary bits and the address
family from `pp_match.l2[PMF_L2F_IP_FAMILY].pm_ipfam` (`none` when the match
specifies no address family, `some true` for IPv6, `some false` for IPv4). -/
structure PmfRule : Type where
  summary : RuleSummary
  ipfam : Option Bool
  deriving DecidableEq, Repr

/-- Counter-group type (`enum gpc_cntr_type`). -/
inductive CntrType : Type
  | numbered
  | named
  deriving DecidableEq, Repr

/-- A counter of the gpc counter registry.  Modelled from the spec:
a counter is identified by a short name, reference-counted by the rules
that use it, and carries published / low-level-created flags. -/
structure GpcCntr : Type where
  name : String
  refcount : Nat
  published : Bool
  llCreated : Bool
  deriving DecidableEq, Repr

/-- A counter group (`struct gpc_cntg`).  Modelled from the spec: it has a
type — NUMBERED or NAMED — fixed at creation, and owns the set of counters. -/
structure GpcCntg : Type where
  ctype : CntrType
  cntrs : List GpcCntr
  deriving DecidableEq, Repr

/-- A rule of the gpc database (`struct gpc_rule`).  Modelled from the spec:
keyed by an index unique within the group, holding the parsed rule, a weak
reference to an associated counter (by name), and a published flag. -/
structure GpcRule : Type where
  idx : Nat
  payload : Option PmfRule
  cntr : Option String
  published : Bool
  deriving DecidableEq, Repr

/-- The combined state of one attached group: the gpc group flags
(published / attached / deferred / low-level-created / family) together with
the `pmf_group_ext` extension (`earg_flags` attribute-rule bit,
`earg_attr_rule`, `earg_num_rules`) and the owned rule and counter
collections. -/
structure GState : Type where
  published : Bool
  attached : Bool
  deferred : Bool
  llCreated : Bool
  family : Option Bool
  attrFlag : Bool
  attrRule : Option PmfRule
  numRules : Nat
  rules : List GpcRule
  cntg : Option GpcCntg
  deriving DecidableEq, Repr

/-- Context visible from the owning ruleset: whether the backing interface
object has been created at the hardware layer, and whether the live
interface pointer is bound. -/
structure Ctx : Type where
  ifCreated : Bool
  ifp : Bool
  deriving DecidableEq, Repr

/-- State threaded through one operation on a group: the group state, the
hardware notifications queued so far, and the global `deferrals` flag. -/
structure GRun : Type where
  g : GState
  evs : List HwEv
  defr : Bool
  deriving DecidableEq, Repr

/-- Queue one hardware notification. -/
def emit (e : HwEv) (s : GRun) : GRun :=
  { s with evs := s.evs ++ [e] }

/-- Queue several hardware notifications. -/
def emits (l : List HwEv) (s : GRun) : GRun :=
  { s with evs := s.evs ++ l }

/-- The reserved attribute-rule index (`UINT32_MAX`). -/
def ATTR_RULE_INDEX : Nat := 4294967295

/-- `uint32_t` increment (used for `++earg->earg_num_rules`). -/
def inc32 (n : Nat) : Nat := (n + 1) % 4294967296

/-- `uint32_t` decrement (used for `--earg->earg_num_rules`): wraps to
`UINT32_MAX` at zero, otherwise subtracts one. -/
def dec32 (n : Nat) : Nat := if n = 0 then 4294967295 else n - 1

/-- The fixed named-counter name for pass actions. -/
def acceptName : String := "accept"

/-- The fixed named-counter name for drop actions. -/
def dropName : String := "drop"

/-- Modelled from the spec: `gpc_cntr_find_and_retain`'s underlying `find` —
"linear scan by name within the owning group's counter list". -/
def findCntr (cg : GpcCntg) (nm : String) : Option GpcCntr :=
  cg.cntrs.find? (fun c => c.name == nm)

/-- Replace the first counter with the given name. -/
def cntrUpdFirst (cs : List GpcCntr) (nm : String) (f : GpcCntr → GpcCntr) :
    List GpcCntr :=
  match cs with
  | [] => []
  | c :: t => if c.name == nm then f c :: t else c :: cntrUpdFirst t nm f

/-- Remove the first counter with the given name. -/
def cntrRemoveFirst (cs : List GpcCntr) (nm : String) : List GpcCntr :=
  match cs with
  | [] => []
  | c :: t => if c.name == nm then t else c :: cntrRemoveFirst t nm

/-- Modelled from the spec: `gpc_group_hw_ntfy_create` — publication makes
the group visible to hardware; it is blocked while the group has no address
family ("may re-defer if still blocked (e.g., address family still missing)")
or while the backing interface does not yet exist ("a group can reach
'should be published' while its backing interface does not yet exist"). -/
def gpc_group_hw_ntfy_create (ctx : Ctx) (ar : Option PmfRule) (s : GRun) :
    GRun :=
  let _ := ar
  if s.g.published then s
  else if s.g.family.isNone then s
  else if !ctx.ifCreated then s
  else emit .grpCreate
    { s with g := { s.g with published := true, llCreated := true } }

/-- Modelled from the spec: `gpc_group_hw_ntfy_delete` — the group-delete
notification; clears the published and low-level-created state. -/
def gpc_group_hw_ntfy_delete (s : GRun) : GRun :=
  if s.g.published then
    emit .grpDelete
      { s with g := { s.g with published := false, llCreated := false } }
  else s

/-- Modelled from the spec: `gpc_group_hw_ntfy_attach` — "If the interface
exists, we will attach"; only a published group can be attached. -/
def gpc_group_hw_ntfy_attach (ctx : Ctx) (s : GRun) : GRun :=
  if s.g.published && ctx.ifp && !s.g.attached then
    emit .grpAttach { s with g := { s.g with attached := true } }
  else s

/-- Modelled from the spec: `gpc_group_hw_ntfy_detach`. -/
def gpc_group_hw_ntfy_detach (s : GRun) : GRun :=
  if s.g.attached then
    emit .grpDetach { s with g := { s.g with attached := false } }
  else s

/-- Modelled from the spec: `gpc_group_hw_ntfy_rules_delete` — bulk rule
deletion notification for every currently published rule of the group. -/
def gpc_group_hw_ntfy_rules_delete (s : GRun) : GRun :=
  let evs := (s.g.rules.filter (fun r => r.published)).map
    (fun r => HwEv.ruleDelete r.idx)
  emits evs
    { s with g :=
      { s.g with rules := s.g.rules.map (fun r => { r with published := false }) } }

/-- Modelled from the spec: `gpc_group_hw_ntfy_rules_create` — bulk rule
creation notification; a no-op unless the group is published. -/
def gpc_group_hw_ntfy_rules_create (s : GRun) : GRun :=
  if !s.g.published then s
  else
    let evs := (s.g.rules.filter (fun r => !r.published)).map
      (fun r => HwEv.ruleCreate r.idx)
    emits evs
      { s with g :=
        { s.g with rules := s.g.rules.map (fun r => { r with published := true }) } }

/-- Replace the counter group of the state. -/
def setCntg (cg : Option GpcCntg) (s : GRun) : GRun :=
  { s with g := { s.g with cntg := cg } }

/-- Modelled from the spec: `gpc_cntg_hw_ntfy_cntrs_delete` — bulk counter
deletion notification for every published counter of the counter group. -/
def gpc_cntg_hw_ntfy_cntrs_delete (s : GRun) : GRun :=
  match s.g.cntg with
  | none => s
  | some cg =>
    let evs := (cg.cntrs.filter (fun c => c.published)).map
      (fun c => HwEv.cntrDelete c.name)
    let cs := cg.cntrs.map (fun c => { c with published := false, llCreated := false })
    emits evs (setCntg (some { cg with cntrs := cs }) s)

/-- Modelled from the spec: `gpc_cntg_hw_ntfy_cntrs_create` — bulk counter
creation; "counters are not pushed to hardware until their group is
published". -/
def gpc_cntg_hw_ntfy_cntrs_create (s : GRun) : GRun :=
  if !s.g.published then s
  else
    match s.g.cntg with
    | none => s
    | some cg =>
      let evs := (cg.cntrs.filter (fun c => !c.published)).map
        (fun c => HwEv.cntrCreate c.name)
      let cs := cg.cntrs.map (fun c => { c with published := true, llCreated := true })
      emits evs (setCntg (some { cg with cntrs := cs }) s)

/-- Modelled from the spec: `gpc_cntr_hw_ntfy_create` — push a single
counter to hardware, gated on the group being published. -/
def gpc_cntr_hw_ntfy_create (nm : Option String) (s : GRun) : GRun :=
  match nm with
  | none => s
  | some nm =>
    if !s.g.published then s
    else
      match s.g.cntg with
      | none => s
      | some cg =>
        match findCntr cg nm with
        | none => s
        | some c =>
          if c.published then s
          else
            let cs := cntrUpdFirst cg.cntrs nm
              (fun x => { x with published := true, llCreated := true })
            emit (.cntrCreate nm) (setCntg (some { cg with cntrs := cs }) s)

/-- Modelled from the spec: `gpc_cntr_release` — "decrements reference
count; if it reaches zero, the counter is unlinked from its group and freed
(after being removed from hardware if previously created)". -/
def gpc_cntr_release (nm : String) (s : GRun) : GRun :=
  match s.g.cntg with
  | none => s
  | some cg =>
    match findCntr cg nm with
    | none => s
    | some c =>
      if c.refcount - 1 > 0 then
        let cs := cntrUpdFirst cg.cntrs nm (fun x => { x with refcount := x.refcount - 1 })
        setCntg (some { cg with cntrs := cs }) s
      else
        let cs := cntrRemoveFirst cg.cntrs nm
        emits (if c.llCreated then [HwEv.cntrDelete nm] else [])
          (setCntg (some { cg with cntrs := cs }) s)

/-- Modelled from the spec: `gpc_cntr_find_and_retain` — find by name and
increment the reference count on the hit path. -/
def gpc_cntr_find_and_retain (nm : String) (s : GRun) :
    Option String × GRun :=
  match s.g.cntg with
  | none => (none, s)
  | some cg =>
    match findCntr cg nm with
    | none => (none, s)
    | some _ =>
      let cs := cntrUpdFirst cg.cntrs nm (fun x => { x with refcount := x.refcount + 1 })
      (some nm, setCntg (some { cg with cntrs := cs }) s)

/-- Modelled from the spec: `gpc_cntr_create_numbered` — "creates a counter
named after the rule's numeric index; fails if one with that name already
exists"; reference count starts at 1. -/
def gpc_cntr_create_numbered (idx : Nat) (s : GRun) : Option String × GRun :=
  match s.g.cntg with
  | none => (none, s)
  | some cg =>
    match findCntr cg (toString idx) with
    | some _ => (none, s)
    | none =>
      let cs := cg.cntrs ++
        [{ name := toString idx, refcount := 1, published := false, llCreated := false }]
      (some (toString idx), setCntg (some { cg with cntrs := cs }) s)

/-- Modelled from the spec: `gpc_cntr_create_named` — create a named
counter with reference count 1. -/
def gpc_cntr_create_named (nm : String) (s : GRun) : Option String × GRun :=
  match s.g.cntg with
  | none => (none, s)
  | some cg =>
    let cs := cg.cntrs ++
      [{ name := nm, refcount := 1, published := false, llCreated := false }]
    (some nm, setCntg (some { cg with cntrs := cs }) s)

/-- `pmf_arlg_rule_needs_cntr` (source lines 384-403): a rule needs a
counter if the counter group is NUMBERED, or if it is NAMED and the rule
references a counter (`PMF_RAS_COUNT_REF`). -/
def pmf_arlg_rule_needs_cntr (cg : GpcCntg) (rule : PmfRule) : Bool :=
  match cg.ctype with
  | .numbered => true
  | .named => rule.summary.countRef

/-- `pmf_arlg_rule_get_cntr` (source lines 405-424): acquire the counter a
rule should use — a fresh numbered counter for NUMBERED groups, or the
shared "accept"/"drop" counter chosen from the rule's pass/drop summary
bits for NAMED groups. -/
def pmf_arlg_rule_get_cntr (rule : PmfRule) (rlNumber : Nat) (s : GRun) :
    Option String × GRun :=
  match s.g.cntg with
  | none => (none, s)
  | some cg =>
    match cg.ctype with
    | .numbered => gpc_cntr_create_numbered rlNumber s
    | .named =>
      if rule.summary.actPass then gpc_cntr_find_and_retain acceptName s
      else if rule.summary.actDrop then gpc_cntr_find_and_retain dropName s
      else (none, s)

/-- Release a counter given by an optional name (a no-op for `none`). -/
def relOpt (no : Option String) (s : GRun) : GRun :=
  match no with
  | some nm => gpc_cntr_release nm s
  | none => s

/-- Release a named counter when the given flag is set. -/
def relIf (b : Bool) (nm : String) (s : GRun) : GRun :=
  if b then gpc_cntr_release nm s else s

/-- The presence probe of `pmf_arlg_rule_create_cntg_rules` (source lines
442-454): `gpc_cntr_find_and_retain` immediately undone by a
`gpc_cntr_release`, recording whether the counter exists. -/
def probeCntr (nm : String) (s : GRun) : Bool × GRun :=
  let fa := gpc_cntr_find_and_retain nm s
  (fa.1.isSome, relOpt fa.1 fa.2)

/-- The creation step of `pmf_arlg_rule_create_cntg_rules` (source lines
456-484): create and hardware-notify the named counter if it is needed and
not present.  Allocation is assumed to succeed (the OOM early return is
not modelled). -/
def ensureCntr (need got : Bool) (nm : String) (s : GRun) : GRun :=
  if need && !got then
    let cn := gpc_cntr_create_named nm s
    gpc_cntr_hw_ntfy_create cn.1 cn.2
  else s

/-- `pmf_arlg_rule_create_cntg_rules` (source lines 430-485): for a NAMED
counter group, ensure the "accept"/"drop" counters requested by the
attribute rule exist, creating and hardware-notifying any missing ones —
probe "accept", probe "drop", then create the missing ones in that order,
as the source does. -/
def pmf_arlg_rule_create_cntg_rules (ar : PmfRule) (s : GRun) : GRun :=
  let pa := probeCntr acceptName s
  let pd := probeCntr dropName pa.2
  let s := ensureCntr ar.summary.countDefPass pa.1 acceptName pd.2
  ensureCntr ar.summary.countDefDrop pd.1 dropName s

/-- `pmf_arlg_rule_create_cntg` (source lines 487-523): if the attribute
rule requests counting, create the counter group — NAMED if any of the
named counter-definition flags is set, NUMBERED otherwise — and for NAMED
groups create the requested action counters immediately. -/
def pmf_arlg_rule_create_cntg (ar : PmfRule) (s : GRun) : GRun :=
  if !ar.summary.countDef then s
  else
    let ty := if ar.summary.namedFlags then CntrType.named else CntrType.numbered
    let s := setCntg (some { ctype := ty, cntrs := [] }) s
    if ty != CntrType.named then s
    else pmf_arlg_rule_create_cntg_rules ar s

/-- `pmf_arlg_rule_delete_cntg` (source lines 525-536): release every
counter of a NAMED counter group; the counter-group object itself is
released (the caller then clears the group's counter-group pointer). -/
def pmf_arlg_rule_delete_cntg (s : GRun) : GRun :=
  match s.g.cntg with
  | none => s
  | some cg =>
    if cg.ctype == CntrType.named then
      (cg.cntrs.map (fun c => c.name)).foldl (fun s nm => gpc_cntr_release nm s) s
    else s

/-- The teardown notifications of `pmf_arlg_rl_attr_check` (source lines
645-650 and 712-717): detach, bulk rule delete, bulk counter delete,
group delete — in that order. -/
def pmf_arlg_unpub_notify (s : GRun) : GRun :=
  let s := gpc_group_hw_ntfy_detach s
  let s := gpc_group_hw_ntfy_rules_delete s
  let s := gpc_cntg_hw_ntfy_cntrs_delete s
  gpc_group_hw_ntfy_delete s

/-- The `publish_group` tail of `pmf_arlg_rl_attr_check` (source lines
670-685): record the address family, then notify group create, bulk
counter create, bulk rule create and attach. -/
def pmf_arlg_publish_all (ctx : Ctx) (ar : PmfRule) (isV6 : Bool) (s : GRun) :
    GRun :=
  let s := { s with g := { s.g with family := some isV6 } }
  let s := gpc_group_hw_ntfy_create ctx (some ar) s
  let s := gpc_cntg_hw_ntfy_cntrs_create s
  let s := gpc_group_hw_ntfy_rules_create s
  gpc_group_hw_ntfy_attach ctx s

/-- The `unpublish_group` tail of `pmf_arlg_rl_attr_check` (source lines
643-657): if published, issue the teardown notifications, mark the group
deferred and raise the global deferrals flag; then clear the
attribute-rule flag and the recorded family. -/
def pmf_arlg_unpublish_group (s : GRun) : GRun :=
  let s :=
    if s.g.published then
      let s := pmf_arlg_unpub_notify s
      { s with g := { s.g with deferred := true }, defr := true }
    else s
  { s with g := { s.g with attrFlag := false, family := none } }

/-- `pmf_arlg_rl_attr_check` (source lines 632-724): the group publication
state machine, reconciling the publication state with the (possibly
absent) attribute rule. -/
def pmf_arlg_rl_attr_check (ctx : Ctx) (ar : Option PmfRule) (s : GRun) :
    GRun :=
  match ar with
  | none =>
    if !s.g.attrFlag then s
    else pmf_arlg_unpublish_group s
  | some rule =>
    if !s.g.attrFlag then
      let s := { s with g := { s.g with attrFlag := true } }
      match rule.ipfam with
      | none => s
      | some isV6 => pmf_arlg_publish_all ctx rule isV6 s
    else
      match rule.ipfam with
      | none =>
        if s.g.family.isSome then pmf_arlg_unpublish_group s else s
      | some isV6 =>
        match s.g.family with
        | none => pmf_arlg_publish_all ctx rule isV6 s
        | some oldV6 =>
          if oldV6 == isV6 then s
          else
            let s := if s.g.published then pmf_arlg_unpub_notify s else s
            let s := { s with g := { s.g with attrFlag := false, family := none } }
            pmf_arlg_publish_all ctx rule isV6 s

/-- Run `pmf_arlg_rule_create_cntg_rules` when the given flag is set. -/
def ccrIf (b : Bool) (ar : PmfRule) (s : GRun) : GRun :=
  if b then pmf_arlg_rule_create_cntg_rules ar s else s

/-- `pmf_arlg_rule_change_cntg` (source lines 541-624): reconcile the
counter group against a changed attribute rule — create / tear down /
retype / adjust the named counter set, driving `pmf_arlg_rl_attr_check`
around structural changes exactly as the source does. -/
def pmf_arlg_rule_change_cntg (ctx : Ctx) (ar : PmfRule) (s : GRun) : GRun :=
  match s.g.cntg with
  | none =>
    let s := pmf_arlg_rule_create_cntg ar s
    pmf_arlg_rl_attr_check ctx (some ar) s
  | some cg =>
    if !ar.summary.countDef then
      let s := pmf_arlg_rule_delete_cntg s
      setCntg none s
    else
      let ty := if ar.summary.namedFlags then CntrType.named else CntrType.numbered
      if ty != cg.ctype then
        let s := pmf_arlg_rl_attr_check ctx none s
        let s := pmf_arlg_rule_delete_cntg s
        let s := setCntg none s
        let s := pmf_arlg_rule_create_cntg ar s
        pmf_arlg_rl_attr_check ctx (some ar) s
      else if ty == CntrType.numbered then s
      else
        let needAccept := ar.summary.countDefPass
        let needDrop := ar.summary.countDefDrop
        let fa := gpc_cntr_find_and_retain acceptName s
        let gotAccept := fa.1.isSome
        let fd := gpc_cntr_find_and_retain dropName fa.2
        let gotDrop := fd.1.isSome
        let s := fd.2
        if gotAccept == needAccept && gotDrop == needDrop then
          let s := relOpt fa.1 s
          relOpt fd.1 s
        else
          let s := pmf_arlg_rl_attr_check ctx none s
          let s := ccrIf ((needAccept && !gotAccept) || (needDrop && !gotDrop)) ar s
          let s := relIf (gotAccept && !needAccept) acceptName s
          let s := relIf (gotDrop && !needDrop) dropName s
          let s := pmf_arlg_rl_attr_check ctx (some ar) s
          let s := relOpt fa.1 s
          relOpt fd.1 s

/-- Replace the first rule with the given index. -/
def ruleUpdFirst (rs : List GpcRule) (idx : Nat) (f : GpcRule → GpcRule) :
    List GpcRule :=
  match rs with
  | [] => []
  | r :: t => if r.idx == idx then f r :: t else r :: ruleUpdFirst t idx f

/-- Remove the first rule with the given index. -/
def ruleRemoveFirst (rs : List GpcRule) (idx : Nat) : List GpcRule :=
  match rs with
  | [] => []
  | r :: t => if r.idx == idx then t else r :: ruleRemoveFirst t idx

/-- Modelled from the spec: `gpc_rule_find` — rule lookup by index. -/
def gpc_rule_find (g : GState) (idx : Nat) : Option GpcRule :=
  g.rules.find? (fun r => r.idx == idx)

/-- Modelled from the spec: `gpc_rule_hw_ntfy_delete` — notify deletion of
a published rule. -/
def gpc_rule_hw_ntfy_delete (idx : Nat) (s : GRun) : GRun :=
  match gpc_rule_find s.g idx with
  | none => s
  | some r =>
    if r.published then
      let rs := ruleUpdFirst s.g.rules idx (fun x => { x with published := false })
      emit (.ruleDelete idx) { s with g := { s.g with rules := rs } }
    else s

/-- The encoding of the summary bits into a `uint32_t` bitfield. -/
def encSummary (r : RuleSummary) : Nat :=
  (if r.countRef then 1 else 0) + (if r.countDef then 2 else 0) +
  (if r.countDefPass then 4 else 0) + (if r.countDefDrop then 8 else 0) +
  (if r.actPass then 16 else 0) + (if r.actDrop then 32 else 0)

/-- Modelled from the spec: `gpc_group_get_summary` — the group summary is
"a bitfield summary (derived, not authoritative) recomputed from all rules'
own summaries"; here derived as the OR over the published rules. -/
def gpc_group_get_summary (g : GState) : Nat :=
  (g.rules.filter (fun r => r.published)).foldr
    (fun r acc =>
      (match r.payload with
       | some p => encSummary p.summary
       | none => 0) ||| acc) 0

/-- Modelled from the spec: `gpc_group_hw_ntfy_modify` — a group-modify
notification (summary update) for a published group. -/
def gpc_group_hw_ntfy_modify (s : GRun) : GRun :=
  if s.g.published then emit .grpModify s else s

/-- Modelled from the spec: `gpc_rule_change_rule` on an existing rule —
"will eventually publish the rule if unpublished, or delete it and add a
new one (which we desire here) if already published" (source comment,
lines 847-857). -/
def gpc_rule_change_rule_first (idx : Nat) (rule : PmfRule) (s : GRun) : GRun :=
  match gpc_rule_find s.g idx with
  | none => s
  | some old =>
    if s.g.published then
      if old.published then
        let rs := ruleUpdFirst s.g.rules idx (fun x => { x with payload := some rule })
        emits [.ruleDelete idx, .ruleCreate idx] { s with g := { s.g with rules := rs } }
      else
        let rs := ruleUpdFirst s.g.rules idx
          (fun x => { x with payload := some rule, published := true })
        emit (.ruleCreate idx) { s with g := { s.g with rules := rs } }
    else
      let rs := ruleUpdFirst s.g.rules idx (fun x => { x with payload := some rule })
      { s with g := { s.g with rules := rs } }

/-- Decrement the rule count (`--earg->earg_num_rules`). -/
def decNumRules (s : GRun) : GRun :=
  { s with g := { s.g with numRules := dec32 s.g.numRules } }

/-- Modelled from the spec: `gpc_rule_delete` — unlink and free the rule. -/
def gpc_rule_delete (rlIdx : Nat) (s : GRun) : GRun :=
  { s with g := { s.g with rules := ruleRemoveFirst s.g.rules rlIdx } }

/-- Republish the recalculated summary when any rules were published
(source lines 776-781). -/
def modifyIf (b : Bool) (s : GRun) : GRun :=
  if b then gpc_group_hw_ntfy_modify s else s

/-- The ordinary-index branch of `pmf_arlg_rl_del` (source lines 762-783):
decrement the rule count, notify hardware deletion, delete the rule,
release its counter, and republish the summary if any rules were
published. -/
def delOrdinary (rlIdx : Nat) (gprl : GpcRule) (s : GRun) : GRun :=
  let oldSummary := gpc_group_get_summary s.g
  let s := decNumRules s
  let s := gpc_rule_hw_ntfy_delete rlIdx s
  let s := gpc_rule_delete rlIdx s
  let s := relOpt gprl.cntr s
  modifyIf (oldSummary != 0) s

/-- `pmf_arlg_rl_del` (source lines 728-784).  At the attribute index the
publication state machine runs with a null rule, the attribute rule is
freed, and any counter group is fully torn down.  At an ordinary index the
rule count is decremented, hardware deletion is notified, the rule is
deleted and its counter released, and the summary is republished if any
rules were published.  Returns `false` on the no-such-rule error paths. -/
def pmf_arlg_rl_del (ctx : Ctx) (rlIdx : Nat) (s : GRun) : GRun × Bool :=
  if rlIdx == ATTR_RULE_INDEX then
    match s.g.attrRule with
    | none => (s, false)
    | some _ =>
      let s := pmf_arlg_rl_attr_check ctx none s
      let s := { s with g := { s.g with attrRule := none } }
      match s.g.cntg with
      | some _ =>
        let s := pmf_arlg_rule_delete_cntg s
        (setCntg none s, true)
      | none => (s, true)
  else
    match gpc_rule_find s.g rlIdx with
    | none => (s, false)
    | some gprl => (delOrdinary rlIdx gprl s, true)

/-- The counter acquisition of `pmf_arlg_rl_add` (source lines 910-914):
if a counter group exists and the rule needs a counter, acquire one. -/
def acquireCntr (rule : PmfRule) (rlIdx : Nat) (s : GRun) :
    Option String × GRun :=
  match s.g.cntg with
  | some cg =>
    if pmf_arlg_rule_needs_cntr cg rule then
      pmf_arlg_rule_get_cntr rule rlIdx s
    else (none, s)
  | none => (none, s)

/-- `pmf_arlg_rl_add` (source lines 880-937).  At the attribute index:
fail on a duplicate, otherwise create the counter group, run the
publication state machine and record the attribute rule.  At an ordinary
index: increment the rule count, acquire a counter if needed, create the
rule (allocation assumed to succeed), notify counter creation, and store
the parsed rule (publishing it when the group is published, as
`gpc_rule_change_rule` does on a fresh rule). -/
def pmf_arlg_rl_add (ctx : Ctx) (rule : PmfRule) (rlIdx : Nat) (s : GRun) :
    GRun × Bool :=
  if rlIdx == ATTR_RULE_INDEX then
    if s.g.attrRule.isSome then (s, false)
    else
      let s := pmf_arlg_rule_create_cntg rule s
      let s := pmf_arlg_rl_attr_check ctx (some rule) s
      ({ s with g := { s.g with attrRule := some rule } }, true)
  else
    let s := { s with g := { s.g with numRules := inc32 s.g.numRules } }
    let cp := acquireCntr rule rlIdx s
    let cntr := cp.1
    let s := cp.2
    let s := gpc_cntr_hw_ntfy_create cntr s
    if s.g.published then
      let newRule : GpcRule :=
        { idx := rlIdx, payload := some rule, cntr := cntr, published := true }
      let rs := s.g.rules ++ [newRule]
      (emit (.ruleCreate rlIdx) { s with g := { s.g with rules := rs } }, true)
    else
      let newRule : GpcRule :=
        { idx := rlIdx, payload := some rule, cntr := cntr, published := false }
      let rs := s.g.rules ++ [newRule]
      ({ s with g := { s.g with rules := rs } }, true)

/-- The counter adjustment of `pmf_arlg_rl_chg` (source lines 816-859):
release the counter when no longer needed, acquire one when missing, and
for NAMED groups re-resolve which named counter applies, marking the
replaced counter for release.  Returns the counter marked for release. -/
def adjustCntr (rule : PmfRule) (rlIdx : Nat) (gprl : GpcRule) (s : GRun) :
    Option String × GRun :=
  match s.g.cntg with
  | none => ((none : Option String), s)
  | some cg =>
    if !pmf_arlg_rule_needs_cntr cg rule then
      (gprl.cntr, s)
    else
      match gprl.cntr with
      | none =>
        let cp := pmf_arlg_rule_get_cntr rule rlIdx s
        let rs := ruleUpdFirst cp.2.g.rules rlIdx (fun x => { x with cntr := cp.1 })
        let s := { cp.2 with g := { cp.2.g with rules := rs } }
        (none, gpc_cntr_hw_ntfy_create cp.1 s)
      | some cn =>
        if cg.ctype == CntrType.named then
          let cp := pmf_arlg_rule_get_cntr rule 0 s
          if cp.1 == some cn then
            (none, relOpt cp.1 cp.2)
          else
            let rs := ruleUpdFirst cp.2.g.rules rlIdx (fun x => { x with cntr := cp.1 })
            let s := { cp.2 with g := { cp.2.g with rules := rs } }
            (some cn, gpc_cntr_hw_ntfy_create cp.1 s)
        else (none, s)

/-- `pmf_arlg_rl_chg` (source lines 786-878).  At the attribute index the
counter group is reconfigured and the stored attribute rule replaced.  At
an ordinary index the counter assignment is adjusted (released when no
longer needed, acquired when missing, re-resolved for NAMED groups), the
rule is swapped, the summary republished if any rules were published, and
finally the marked counter is released. -/
def pmf_arlg_rl_chg (ctx : Ctx) (rule : PmfRule) (rlIdx : Nat) (s : GRun) :
    GRun × Bool :=
  if rlIdx == ATTR_RULE_INDEX then
    match s.g.attrRule with
    | none => (s, false)
    | some _ =>
      let s := pmf_arlg_rule_change_cntg ctx rule s
      ({ s with g := { s.g with attrRule := some rule } }, true)
  else
    match gpc_rule_find s.g rlIdx with
    | none => (s, false)
    | some gprl =>
      let ap := adjustCntr rule rlIdx gprl s
      let oldSummary := gpc_group_get_summary ap.2.g
      let s := gpc_rule_change_rule_first rlIdx rule ap.2
      let s := modifyIf (oldSummary != 0) s
      let s := relOpt ap.1 s
      (s, true)

/-- Fuel bound for the `while ((cntr = gpc_cntr_last(cntg)))` release loop
of the group-detach handler: the total of the reference counts plus the
number of counters suffices, as every release removes a reference or a
counter. -/
def cntgFuel (cg : GpcCntg) : Nat :=
  cg.cntrs.foldr (fun c acc => c.refcount + acc) 0 + cg.cntrs.length + 1

/-- The named-counter release loop of the group-detach handler (source
lines 1143-1147): release the last counter until none remain. -/
def releaseLastLoop : Nat → GRun → GRun
  | 0, s => s
  | fuel + 1, s =>
    match s.g.cntg with
    | none => s
    | some cg =>
      match cg.cntrs.getLast? with
      | none => s
      | some c => releaseLastLoop fuel (gpc_cntr_release c.name s)

/-- The rule deallocation loop of the group-detach handler (source lines
1125-1141): walk the rules from the last, decrementing the rule count and
releasing each rule's counter. -/
def grpRemoveRuleFold (s : GRun) : GRun :=
  s.g.rules.reverse.foldl
    (fun s r =>
      let g2 := { s.g with numRules := dec32 s.g.numRules, rules := s.g.rules.dropLast }
      let s := { s with g := g2 }
      match r.cntr with
      | some nm => gpc_cntr_release nm s
      | none => s) s

/-- The NAMED-counter release loop of the group-detach handler (source
lines 1143-1147). -/
def grpRemoveNamedRelease (s : GRun) : GRun :=
  match s.g.cntg with
  | some cg =>
    if cg.ctype == CntrType.named then releaseLastLoop (cntgFuel cg) s else s
  | none => s

/-- The final bookkeeping of the group-detach handler (source lines
1148-1158): drop the counter group, zero the rule count and free the
attribute rule. -/
def grpRemoveClear (s : GRun) : GRun :=
  { s with g := { s.g with cntg := none, numRules := 0, attrRule := none } }

/-- The group-detach branch of `pmf_arlg_attpt_grp_ev_handler` (source
lines 1106-1167): detach, bulk rule delete, bulk counter delete, then
deallocate the rules from the last (decrementing the rule count and
releasing rule counters), release remaining NAMED counters, drop the
counter group, zero the rule count, free the attribute rule, and finally
notify the group deletion.  (The listener deregistration performs no
hardware action and is not modelled.) -/
def pmf_arlg_grp_remove (s : GRun) : GRun :=
  gpc_group_hw_ntfy_delete
    (grpRemoveClear
      (grpRemoveNamedRelease
        (grpRemoveRuleFold
          (gpc_cntg_hw_ntfy_cntrs_delete
            (gpc_group_hw_ntfy_rules_delete
              (gpc_group_hw_ntfy_detach s))))))

/-- The global state: the (single modelled) ruleset's interface context,
the optional attached group, the queued and flushed (issued) hardware
notifications, and the two global flags `deferrals` / `commit_pending`. -/
structure Sys : Type where
  ifCreated : Bool
  ifp : Bool
  grp : Option GState
  queue : List HwEv
  issued : List HwEv
  deferrals : Bool
  commitPending : Bool
  deriving DecidableEq, Repr

/-- The ruleset context of the system state. -/
def Sys.ctx (s : Sys) : Ctx := { ifCreated := s.ifCreated, ifp := s.ifp }

/-- Run a rule operation through `pmf_arlg_group_modify` (source lines
959-984): the operation only runs while the group exists (the listener is
registered), its notifications are queued, and `commit_pending` is set. -/
def runGrpOp (f : Ctx → GRun → GRun × Bool) (s : Sys) : Sys :=
  match s.grp with
  | none => s
  | some g =>
    let r := (f s.ctx { g := g, evs := [], defr := s.deferrals }).1
    { s with
      grp := some r.g
      queue := s.queue ++ r.evs
      deferrals := r.defr
      commitPending := true }

/-- Configuration events delivered to the subsystem for one group: rule
add/change/delete (including the attribute rule at the sentinel index),
group detach, and commit. -/
inductive Ev : Type
  | ruleAdd (rule : PmfRule) (idx : Nat)
  | ruleChg (rule : PmfRule) (idx : Nat)
  | ruleDel (idx : Nat)
  | grpRemove
  | commit
  deriving DecidableEq, Repr

/-- `pmf_arlg_commit_deferrals` (source lines 1347-1383): for a deferred
group, clear the deferred mark and re-attempt full publication: group
create, counter create, rule create, attach. -/
def pmf_arlg_commit_deferrals (s : Sys) : Sys :=
  match s.grp with
  | none => s
  | some g =>
    if g.deferred then
      let s0 : GRun := { g := { g with deferred := false }, evs := [], defr := s.deferrals }
      let s1 := gpc_group_hw_ntfy_create s.ctx g.attrRule s0
      let s1 := gpc_cntg_hw_ntfy_cntrs_create s1
      let s1 := gpc_group_hw_ntfy_rules_create s1
      let s1 := gpc_group_hw_ntfy_attach s.ctx s1
      { s with
        grp := some s1.g
        queue := s.queue ++ s1.evs
        deferrals := s1.defr }
    else s

/-- Modelled from the spec: `pmf_hw_commit` — "a bulk commit call flushes
a batch": the queued notifications are issued to hardware as one unit. -/
def pmf_hw_commit (s : Sys) : Sys :=
  { s with issued := s.issued ++ s.queue, queue := [] }

/-- `pmf_arlg_commit` (source lines 1385-1394): process deferrals if the
flag is raised, flush the queued notifications, and clear both flags. -/
def pmf_arlg_commit (s : Sys) : Sys :=
  let s := if s.deferrals then pmf_arlg_commit_deferrals s else s
  let s := pmf_hw_commit s
  { s with deferrals := false, commitPending := false }

/-- The group-detach event at the system level: run the handler, drop the
group wrapper, and mark a commit as pending. -/
def grpRemoveSys (s : Sys) : Sys :=
  match s.grp with
  | none => s
  | some g =>
    let r := pmf_arlg_grp_remove { g := g, evs := [], defr := s.deferrals }
    { s with
      grp := none
      queue := s.queue ++ r.evs
      deferrals := r.defr
      commitPending := true }

/-- One event step of the subsystem. -/
def step (s : Sys) (e : Ev) : Sys :=
  match e with
  | .ruleAdd rule idx => runGrpOp (fun c gr => pmf_arlg_rl_add c rule idx gr) s
  | .ruleChg rule idx => runGrpOp (fun c gr => pmf_arlg_rl_chg c rule idx gr) s
  | .ruleDel idx => runGrpOp (fun c gr => pmf_arlg_rl_del c idx gr) s
  | .grpRemove => grpRemoveSys s
  | .commit => pmf_arlg_commit s

/-- Run a sequence of events. -/
def runEvs (s : Sys) (evs : List Ev) : Sys := evs.foldl step s

/-- The state immediately after the group-attach event (source lines
1034-1102): a fresh group marked deferred, the global deferrals flag
raised, and a commit pending. -/
def initSys (ifCreated ifp : Bool) : Sys :=
  { ifCreated := ifCreated, ifp := ifp,
    grp := some
      { published := false, attached := false, deferred := true,
        llCreated := false, family := none, attrFlag := false,
        attrRule := none, numRules := 0, rules := [], cntg := none },
    queue := [], issued := [], deferrals := true, commitPending := true }

/-! ### Frame lemmas for the group operations -/

/-- The group fields (other than `published` and the event queue) that the
notification primitives leave untouched. -/
def SameCore (s t : GRun) : Prop :=
  t.g.family = s.g.family ∧ t.g.attrFlag = s.g.attrFlag ∧
  t.g.attrRule = s.g.attrRule ∧ t.g.numRules = s.g.numRules ∧
  t.g.rules.length = s.g.rules.length ∧ t.g.cntg.isSome = s.g.cntg.isSome ∧
  t.g.deferred = s.g.deferred ∧ t.defr = s.defr

theorem sameCore_refl (s : GRun) : SameCore s s := by
  simp [SameCore]

theorem sameCore_trans {s t u : GRun} (h1 : SameCore s t) (h2 : SameCore t u) :
    SameCore s u := by
  obtain ⟨a1, a2, a3, a4, a5, a6, a7, a8⟩ := h1
  obtain ⟨b1, b2, b3, b4, b5, b6, b7, b8⟩ := h2
  exact ⟨b1.trans a1, b2.trans a2, b3.trans a3, b4.trans a4, b5.trans a5,
    b6.trans a6, b7.trans a7, b8.trans a8⟩

theorem emit_core (e : HwEv) (s : GRun) : SameCore s (emit e s) := by
  simp [SameCore, emit]

theorem emits_core (l : List HwEv) (s : GRun) : SameCore s (emits l s) := by
  simp [SameCore, emits]

theorem emit_pub (e : HwEv) (s : GRun) : (emit e s).g.published = s.g.published := rfl

theorem emits_pub (l : List HwEv) (s : GRun) :
    (emits l s).g.published = s.g.published := rfl

theorem setCntg_some_core (cg : GpcCntg) (s : GRun) (h : s.g.cntg.isSome = true) :
    SameCore s (setCntg (some cg) s) := by
  simp [SameCore, setCntg, h]

theorem setCntg_pub (cgo : Option GpcCntg) (s : GRun) :
    (setCntg cgo s).g.published = s.g.published := rfl

theorem hw_create_core (ctx : Ctx) (ar : Option PmfRule) (s : GRun) :
    SameCore s (gpc_group_hw_ntfy_create ctx ar s) := by
  unfold gpc_group_hw_ntfy_create
  split
  · exact sameCore_refl s
  · split
    · exact sameCore_refl s
    · split
      · exact sameCore_refl s
      · simp [SameCore, emit]

theorem hw_create_pubFam (ctx : Ctx) (ar : Option PmfRule) (s : GRun)
    (h : s.g.published = true → s.g.family.isSome = true) :
    (gpc_group_hw_ntfy_create ctx ar s).g.published = true →
      (gpc_group_hw_ntfy_create ctx ar s).g.family.isSome = true := by
  unfold gpc_group_hw_ntfy_create
  split
  · exact h
  · split
    · exact h
    · split
      · exact h
      · next hpub hfam hifc =>
        intro _
        simp [emit]
        simp [Option.isNone_iff_eq_none] at hfam
        simp [Option.isSome_iff_ne_none, hfam]

theorem hw_delete_core (s : GRun) : SameCore s (gpc_group_hw_ntfy_delete s) := by
  unfold gpc_group_hw_ntfy_delete
  split
  · simp [SameCore, emit]
  · exact sameCore_refl s

theorem hw_delete_pub (s : GRun) :
    (gpc_group_hw_ntfy_delete s).g.published = false := by
  unfold gpc_group_hw_ntfy_delete
  split
  · simp [emit]
  · next h => simp at h; exact h

theorem attach_core (ctx : Ctx) (s : GRun) :
    SameCore s (gpc_group_hw_ntfy_attach ctx s) := by
  unfold gpc_group_hw_ntfy_attach
  split
  · simp [SameCore, emit]
  · exact sameCore_refl s

theorem attach_pub (ctx : Ctx) (s : GRun) :
    (gpc_group_hw_ntfy_attach ctx s).g.published = s.g.published := by
  unfold gpc_group_hw_ntfy_attach
  split
  · simp [emit]
  · rfl

theorem detach_core (s : GRun) : SameCore s (gpc_group_hw_ntfy_detach s) := by
  unfold gpc_group_hw_ntfy_detach
  split
  · simp [SameCore, emit]
  · exact sameCore_refl s

theorem detach_pub (s : GRun) :
    (gpc_group_hw_ntfy_detach s).g.published = s.g.published := by
  unfold gpc_group_hw_ntfy_detach
  split
  · simp [emit]
  · rfl

theorem rules_delete_core (s : GRun) :
    SameCore s (gpc_group_hw_ntfy_rules_delete s) := by
  simp [SameCore, gpc_group_hw_ntfy_rules_delete, emits]

theorem rules_delete_pub (s : GRun) :
    (gpc_group_hw_ntfy_rules_delete s).g.published = s.g.published := rfl

theorem rules_create_core (s : GRun) :
    SameCore s (gpc_group_hw_ntfy_rules_create s) := by
  unfold gpc_group_hw_ntfy_rules_create
  split
  · exact sameCore_refl s
  · simp [SameCore, emits]

theorem rules_create_pub (s : GRun) :
    (gpc_group_hw_ntfy_rules_create s).g.published = s.g.published := by
  unfold gpc_group_hw_ntfy_rules_create
  split
  · rfl
  · simp [emits]

theorem cntrs_delete_core (s : GRun) :
    SameCore s (gpc_cntg_hw_ntfy_cntrs_delete s) := by
  unfold gpc_cntg_hw_ntfy_cntrs_delete
  split
  · exact sameCore_refl s
  · next cg heq => simp [SameCore, emits, setCntg, heq]

theorem cntrs_delete_pub (s : GRun) :
    (gpc_cntg_hw_ntfy_cntrs_delete s).g.published = s.g.published := by
  unfold gpc_cntg_hw_ntfy_cntrs_delete
  split
  · rfl
  · simp [emits, setCntg]

theorem cntrs_create_core (s : GRun) :
    SameCore s (gpc_cntg_hw_ntfy_cntrs_create s) := by
  unfold gpc_cntg_hw_ntfy_cntrs_create
  split
  · exact sameCore_refl s
  · split
    · exact sameCore_refl s
    · next cg heq => simp [SameCore, emits, setCntg, heq]

theorem cntrs_create_pub (s : GRun) :
    (gpc_cntg_hw_ntfy_cntrs_create s).g.published = s.g.published := by
  unfold gpc_cntg_hw_ntfy_cntrs_create
  split
  · rfl
  · split
    · rfl
    · simp [emits, setCntg]

theorem cntr_hw_create_core (nm : Option String) (s : GRun) :
    SameCore s (gpc_cntr_hw_ntfy_create nm s) := by
  unfold gpc_cntr_hw_ntfy_create
  split
  · exact sameCore_refl s
  · split
    · exact sameCore_refl s
    · split
      · exact sameCore_refl s
      · split
        · exact sameCore_refl s
        · split
          · exact sameCore_refl s
          · simp_all [SameCore, emit, setCntg]

theorem cntr_hw_create_pub (nm : Option String) (s : GRun) :
    (gpc_cntr_hw_ntfy_create nm s).g.published = s.g.published := by
  unfold gpc_cntr_hw_ntfy_create
  split
  · rfl
  · split
    · rfl
    · split
      · rfl
      · split
        · rfl
        · split
          · rfl
          · simp [emit, setCntg]

theorem cntr_release_core (nm : String) (s : GRun) :
    SameCore s (gpc_cntr_release nm s) := by
  unfold gpc_cntr_release
  split
  · exact sameCore_refl s
  · next cg heq =>
    split
    · exact sameCore_refl s
    · split
      · simp [SameCore, setCntg, heq]
      · simp [SameCore, emits, setCntg, heq]

theorem cntr_release_pub (nm : String) (s : GRun) :
    (gpc_cntr_release nm s).g.published = s.g.published := by
  unfold gpc_cntr_release
  split
  · rfl
  · split
    · rfl
    · split
      · simp [setCntg]
      · simp [emits, setCntg]

theorem find_and_retain_core (nm : String) (s : GRun) :
    SameCore s (gpc_cntr_find_and_retain nm s).2 := by
  unfold gpc_cntr_find_and_retain
  split
  · exact sameCore_refl s
  · next cg heq =>
    split
    · exact sameCore_refl s
    · simp [SameCore, setCntg, heq]

theorem find_and_retain_pub (nm : String) (s : GRun) :
    (gpc_cntr_find_and_retain nm s).2.g.published = s.g.published := by
  unfold gpc_cntr_find_and_retain
  split
  · rfl
  · split
    · rfl
    · simp [setCntg]

theorem create_numbered_core (idx : Nat) (s : GRun) :
    SameCore s (gpc_cntr_create_numbered idx s).2 := by
  unfold gpc_cntr_create_numbered
  split
  · exact sameCore_refl s
  · next cg heq =>
    split
    · exact sameCore_refl s
    · simp [SameCore, setCntg, heq]

theorem create_numbered_pub (idx : Nat) (s : GRun) :
    (gpc_cntr_create_numbered idx s).2.g.published = s.g.published := by
  unfold gpc_cntr_create_numbered
  split
  · rfl
  · split
    · rfl
    · simp [setCntg]

theorem create_named_core (nm : String) (s : GRun) :
    SameCore s (gpc_cntr_create_named nm s).2 := by
  unfold gpc_cntr_create_named
  split
  · exact sameCore_refl s
  · next cg heq => simp [SameCore, setCntg, heq]

theorem create_named_pub (nm : String) (s : GRun) :
    (gpc_cntr_create_named nm s).2.g.published = s.g.published := by
  unfold gpc_cntr_create_named
  split
  · rfl
  · simp [setCntg]

theorem modify_core (s : GRun) : SameCore s (gpc_group_hw_ntfy_modify s) := by
  unfold gpc_group_hw_ntfy_modify
  split
  · exact emit_core _ s
  · exact sameCore_refl s

theorem modify_pub (s : GRun) :
    (gpc_group_hw_ntfy_modify s).g.published = s.g.published := by
  unfold gpc_group_hw_ntfy_modify
  split
  · rfl
  · rfl

/-- A group is published only when it has a recorded address family. -/
def PubFam (s : GRun) : Prop :=
  s.g.published = true → s.g.family.isSome = true

theorem pubFam_of_core {s t : GRun} (h1 : SameCore s t)
    (h2 : t.g.published = s.g.published) (h : PubFam s) : PubFam t := by
  intro hp
  rw [h1.1]
  exact h (h2 ▸ hp)

theorem unpub_notify_core (s : GRun) : SameCore s (pmf_arlg_unpub_notify s) := by
  unfold pmf_arlg_unpub_notify
  exact sameCore_trans (detach_core s)
    (sameCore_trans (rules_delete_core _)
      (sameCore_trans (cntrs_delete_core _) (hw_delete_core _)))

theorem unpub_notify_pub (s : GRun) :
    (pmf_arlg_unpub_notify s).g.published = false := by
  unfold pmf_arlg_unpub_notify
  exact hw_delete_pub _

theorem publish_all_core (ctx : Ctx) (ar : PmfRule) (isV6 : Bool) (s : GRun) :
    SameCore { s with g := { s.g with family := some isV6 } }
      (pmf_arlg_publish_all ctx ar isV6 s) := by
  unfold pmf_arlg_publish_all
  exact sameCore_trans (hw_create_core ctx (some ar) _)
    (sameCore_trans (cntrs_create_core _)
      (sameCore_trans (rules_create_core _) (attach_core ctx _)))

theorem publish_all_family (ctx : Ctx) (ar : PmfRule) (isV6 : Bool) (s : GRun) :
    (pmf_arlg_publish_all ctx ar isV6 s).g.family = some isV6 :=
  (publish_all_core ctx ar isV6 s).1

theorem publish_all_pubFam (ctx : Ctx) (ar : PmfRule) (isV6 : Bool) (s : GRun) :
    PubFam (pmf_arlg_publish_all ctx ar isV6 s) := by
  intro _
  rw [publish_all_family]
  rfl

theorem unpublish_group_spec (s : GRun) :
    (pmf_arlg_unpublish_group s).g.published = false ∧
    (pmf_arlg_unpublish_group s).g.attrFlag = false ∧
    (pmf_arlg_unpublish_group s).g.family = none ∧
    (pmf_arlg_unpublish_group s).g.attrRule = s.g.attrRule ∧
    (pmf_arlg_unpublish_group s).g.numRules = s.g.numRules ∧
    (pmf_arlg_unpublish_group s).g.rules.length = s.g.rules.length ∧
    (pmf_arlg_unpublish_group s).g.cntg.isSome = s.g.cntg.isSome ∧
    (pmf_arlg_unpublish_group s).g.deferred
      = (if s.g.published = true then true else s.g.deferred) ∧
    (pmf_arlg_unpublish_group s).defr
      = (if s.g.published = true then true else s.defr) := by
  unfold pmf_arlg_unpublish_group
  split
  · next hpub =>
    have hc := unpub_notify_core s
    have hp := unpub_notify_pub s
    obtain ⟨c1, c2, c3, c4, c5, c6, c7, c8⟩ := hc
    simp [hpub, hp, c1, c3, c4, c5, c6]
  · next hpub =>
    simp at hpub
    simp [hpub]


/-- Everything a pure notification primitive leaves unchanged: `SameCore`
plus the published flag. -/
def Frame (s t : GRun) : Prop :=
  t.g.published = s.g.published ∧ SameCore s t

theorem frame_refl (s : GRun) : Frame s s :=
  ⟨rfl, sameCore_refl s⟩

theorem frame_trans {s t u : GRun} (h1 : Frame s t) (h2 : Frame t u) :
    Frame s u :=
  ⟨h2.1.trans h1.1, sameCore_trans h1.2 h2.2⟩

theorem pubFam_of_frame {s t : GRun} (h1 : Frame s t) (h : PubFam s) :
    PubFam t :=
  pubFam_of_core h1.2 h1.1 h

theorem detach_frame (s : GRun) : Frame s (gpc_group_hw_ntfy_detach s) :=
  ⟨detach_pub s, detach_core s⟩

theorem attach_frame (ctx : Ctx) (s : GRun) :
    Frame s (gpc_group_hw_ntfy_attach ctx s) :=
  ⟨attach_pub ctx s, attach_core ctx s⟩

theorem rules_delete_frame (s : GRun) :
    Frame s (gpc_group_hw_ntfy_rules_delete s) :=
  ⟨rules_delete_pub s, rules_delete_core s⟩

theorem rules_create_frame (s : GRun) :
    Frame s (gpc_group_hw_ntfy_rules_create s) :=
  ⟨rules_create_pub s, rules_create_core s⟩

theorem cntrs_delete_frame (s : GRun) :
    Frame s (gpc_cntg_hw_ntfy_cntrs_delete s) :=
  ⟨cntrs_delete_pub s, cntrs_delete_core s⟩

theorem cntrs_create_frame (s : GRun) :
    Frame s (gpc_cntg_hw_ntfy_cntrs_create s) :=
  ⟨cntrs_create_pub s, cntrs_create_core s⟩

theorem cntr_hw_create_frame (nm : Option String) (s : GRun) :
    Frame s (gpc_cntr_hw_ntfy_create nm s) :=
  ⟨cntr_hw_create_pub nm s, cntr_hw_create_core nm s⟩

theorem cntr_release_frame (nm : String) (s : GRun) :
    Frame s (gpc_cntr_release nm s) :=
  ⟨cntr_release_pub nm s, cntr_release_core nm s⟩

theorem find_and_retain_frame (nm : String) (s : GRun) :
    Frame s (gpc_cntr_find_and_retain nm s).2 :=
  ⟨find_and_retain_pub nm s, find_and_retain_core nm s⟩

theorem create_numbered_frame (idx : Nat) (s : GRun) :
    Frame s (gpc_cntr_create_numbered idx s).2 :=
  ⟨create_numbered_pub idx s, create_numbered_core idx s⟩

theorem create_named_frame (nm : String) (s : GRun) :
    Frame s (gpc_cntr_create_named nm s).2 :=
  ⟨create_named_pub nm s, create_named_core nm s⟩

theorem modify_frame (s : GRun) : Frame s (gpc_group_hw_ntfy_modify s) :=
  ⟨modify_pub s, modify_core s⟩

theorem emit_frame (e : HwEv) (s : GRun) : Frame s (emit e s) :=
  ⟨emit_pub e s, emit_core e s⟩

theorem emits_frame (l : List HwEv) (s : GRun) : Frame s (emits l s) :=
  ⟨emits_pub l s, emits_core l s⟩

theorem releases_foldl_frame (l : List String) (s : GRun) :
    Frame s (l.foldl (fun s nm => gpc_cntr_release nm s) s) := by
  induction l generalizing s with
  | nil => exact frame_refl s
  | cons nm t ih => exact frame_trans (cntr_release_frame nm s) (ih _)

theorem rule_get_cntr_frame (rule : PmfRule) (n : Nat) (s : GRun) :
    Frame s (pmf_arlg_rule_get_cntr rule n s).2 := by
  unfold pmf_arlg_rule_get_cntr
  split
  · exact frame_refl s
  · split
    · exact create_numbered_frame n s
    · split
      · exact find_and_retain_frame acceptName s
      · split
        · exact find_and_retain_frame dropName s
        · exact frame_refl s

theorem delete_cntg_frame (s : GRun) :
    Frame s (pmf_arlg_rule_delete_cntg s) := by
  unfold pmf_arlg_rule_delete_cntg
  split
  · exact frame_refl s
  · split
    · exact releases_foldl_frame _ s
    · exact frame_refl s

theorem releaseLastLoop_frame (fuel : Nat) (s : GRun) :
    Frame s (releaseLastLoop fuel s) := by
  induction fuel generalizing s with
  | zero => exact frame_refl s
  | succ n ih =>
    unfold releaseLastLoop
    split
    · exact frame_refl s
    · split
      · exact frame_refl s
      · exact frame_trans (cntr_release_frame _ s) (ih _)


theorem relOpt_frame (no : Option String) (s : GRun) :
    Frame s (relOpt no s) := by
  unfold relOpt
  cases no with
  | none => exact frame_refl s
  | some nm => exact cntr_release_frame nm s

theorem relIf_frame (b : Bool) (nm : String) (s : GRun) :
    Frame s (relIf b nm s) := by
  unfold relIf
  split
  · exact cntr_release_frame nm s
  · exact frame_refl s

theorem probeCntr_frame (nm : String) (s : GRun) :
    Frame s (probeCntr nm s).2 := by
  unfold probeCntr
  dsimp only
  exact frame_trans (find_and_retain_frame nm s) (relOpt_frame _ _)

theorem frame_created_ntfy (nm : String) (s : GRun) :
    Frame s (gpc_cntr_hw_ntfy_create (gpc_cntr_create_named nm s).1
      (gpc_cntr_create_named nm s).2) :=
  frame_trans (create_named_frame nm s) (cntr_hw_create_frame _ _)

theorem ensureCntr_frame (need got : Bool) (nm : String) (s : GRun) :
    Frame s (ensureCntr need got nm s) := by
  unfold ensureCntr
  split
  · exact frame_created_ntfy nm s
  · exact frame_refl s

theorem create_cntg_rules_frame (ar : PmfRule) (s : GRun) :
    Frame s (pmf_arlg_rule_create_cntg_rules ar s) := by
  unfold pmf_arlg_rule_create_cntg_rules
  dsimp only
  refine frame_trans (probeCntr_frame acceptName s) ?_
  refine frame_trans (probeCntr_frame dropName _) ?_
  refine frame_trans (ensureCntr_frame ar.summary.countDefPass
    (probeCntr acceptName s).1 acceptName _) ?_
  exact ensureCntr_frame ar.summary.countDefDrop
    (probeCntr dropName (probeCntr acceptName s).2).1 dropName _


theorem ccrIf_frame (b : Bool) (ar : PmfRule) (s : GRun) :
    Frame s (ccrIf b ar s) := by
  unfold ccrIf
  split
  · exact create_cntg_rules_frame ar s
  · exact frame_refl s

theorem create_cntg_noCntg (ar : PmfRule) (s : GRun) :
    (pmf_arlg_rule_create_cntg ar s).g.published = s.g.published ∧
    (pmf_arlg_rule_create_cntg ar s).g.family = s.g.family ∧
    (pmf_arlg_rule_create_cntg ar s).g.attrFlag = s.g.attrFlag ∧
    (pmf_arlg_rule_create_cntg ar s).g.attrRule = s.g.attrRule ∧
    (pmf_arlg_rule_create_cntg ar s).g.numRules = s.g.numRules ∧
    (pmf_arlg_rule_create_cntg ar s).g.rules.length = s.g.rules.length ∧
    (pmf_arlg_rule_create_cntg ar s).g.deferred = s.g.deferred ∧
    (pmf_arlg_rule_create_cntg ar s).defr = s.defr := by
  unfold pmf_arlg_rule_create_cntg
  cases hcd : ar.summary.countDef with
  | false => simp [hcd]
  | true =>
    cases hnf : ar.summary.namedFlags with
    | false => simp [hcd, hnf, setCntg]
    | true =>
      obtain ⟨p, c1, c2, c3, c4, c5, c6, c7, c8⟩ :=
        create_cntg_rules_frame ar
          (setCntg (some { ctype := CntrType.named, cntrs := [] }) s)
      simp only [hcd, hnf, setCntg] at p c1 c2 c3 c4 c5 c7 c8 ⊢
      simp only [Bool.not_true, bne_self_eq_false, if_false, Bool.false_eq_true]
      exact ⟨p, c1, c2, c3, c4, c5, c7, c8⟩

/-- The parts of the group configuration that the reconciler and the
counter-group reconfiguration leave untouched, together with preservation
of the publication/family relation. -/
def CfgFam (s t : GRun) : Prop :=
  t.g.attrRule = s.g.attrRule ∧ t.g.numRules = s.g.numRules ∧
  t.g.rules.length = s.g.rules.length ∧ (PubFam s → PubFam t)

theorem cfgFam_refl (s : GRun) : CfgFam s s :=
  ⟨rfl, rfl, rfl, fun h => h⟩

theorem cfgFam_trans {s t u : GRun} (h1 : CfgFam s t) (h2 : CfgFam t u) :
    CfgFam s u :=
  ⟨h2.1.trans h1.1, h2.2.1.trans h1.2.1, h2.2.2.1.trans h1.2.2.1,
    fun h => h2.2.2.2 (h1.2.2.2 h)⟩

theorem cfgFam_of_frame {s t : GRun} (h : Frame s t) : CfgFam s t :=
  ⟨h.2.2.2.1, h.2.2.2.2.1, h.2.2.2.2.2.1, pubFam_of_frame h⟩

theorem attr_check_none_flag (ctx : Ctx) (s : GRun)
    (hf : s.g.attrFlag = true) :
    pmf_arlg_rl_attr_check ctx none s = pmf_arlg_unpublish_group s := by
  unfold pmf_arlg_rl_attr_check
  simp [hf]

theorem cfgFam_unpublish (s : GRun) : CfgFam s (pmf_arlg_unpublish_group s) := by
  obtain ⟨p, _, _, h4, h5, h6, _, _, _⟩ := unpublish_group_spec s
  exact ⟨h4, h5, h6, fun _ => by intro hp; rw [p] at hp; cases hp⟩

theorem cfgFam_publish_all (ctx : Ctx) (ar : PmfRule) (isV6 : Bool) (s : GRun) :
    CfgFam s (pmf_arlg_publish_all ctx ar isV6 s) := by
  obtain ⟨_, _, c3, c4, c5, _, _, _⟩ := publish_all_core ctx ar isV6 s
  exact ⟨c3, c4, c5, fun _ => publish_all_pubFam ctx ar isV6 s⟩

theorem attr_check_cfgFam (ctx : Ctx) (ar : Option PmfRule) (s : GRun) :
    CfgFam s (pmf_arlg_rl_attr_check ctx ar s) := by
  unfold pmf_arlg_rl_attr_check
  cases ar with
  | none =>
    dsimp only
    split
    · exact cfgFam_refl s
    · exact cfgFam_unpublish s
  | some rule =>
    dsimp only
    split
    · split
      · exact ⟨rfl, rfl, rfl, fun h hp => h hp⟩
      · next isV6 _ =>
        refine cfgFam_trans (t := { s with g := { s.g with attrFlag := true } })
          ⟨rfl, rfl, rfl, fun h hp => h hp⟩ ?_
        exact cfgFam_publish_all ctx rule isV6 _
    · split
      · split
        · exact cfgFam_unpublish s
        · exact cfgFam_refl s
      · next isV6 _ =>
        split
        · exact cfgFam_publish_all ctx rule isV6 s
        · next oldV6 _ =>
          split
          · exact cfgFam_refl s
          · refine cfgFam_trans (t := if s.g.published = true
              then pmf_arlg_unpub_notify s else s) ?_ ?_
            · split
              · obtain ⟨c1, c2, c3, c4, c5, c6, c7, c8⟩ := unpub_notify_core s
                have hp := unpub_notify_pub s
                exact ⟨c3, c4, c5, fun _ => by intro hq; rw [hp] at hq; cases hq⟩
              · exact cfgFam_refl s
            · set t := if s.g.published = true then pmf_arlg_unpub_notify s else s with ht
              have hpub : t.g.published = false := by
                rw [ht]
                split
                · exact unpub_notify_pub s
                · next h => simp at h; exact h
              refine cfgFam_trans
                (t := { t with g := { t.g with attrFlag := false, family := none } })
                ⟨rfl, rfl, rfl, fun _ => ?_⟩ ?_
              · intro hp
                have h2 : t.g.published = true := hp
                rw [hpub] at h2
                cases h2
              · exact cfgFam_publish_all ctx rule isV6 _


theorem pubFam_of_eq {s t : GRun} (hp : t.g.published = s.g.published)
    (hf : t.g.family = s.g.family) (h : PubFam s) : PubFam t := by
  intro hq
  rw [hf]
  exact h (hp ▸ hq)

theorem create_cntg_cfgFam (ar : PmfRule) (s : GRun) :
    CfgFam s (pmf_arlg_rule_create_cntg ar s) := by
  obtain ⟨p, c1, c2, c3, c4, c5, c6, c7⟩ := create_cntg_noCntg ar s
  exact ⟨c3, c4, c5, pubFam_of_eq p c1⟩

theorem attr_check_cntgIsSome (ctx : Ctx) (ar : Option PmfRule) (s : GRun) :
    (pmf_arlg_rl_attr_check ctx ar s).g.cntg.isSome = s.g.cntg.isSome := by
  unfold pmf_arlg_rl_attr_check
  cases ar with
  | none =>
    dsimp only
    split
    · rfl
    · obtain ⟨_, _, _, _, _, _, h7, _, _⟩ := unpublish_group_spec s
      exact h7
  | some rule =>
    dsimp only
    split
    · split
      · rfl
      · next isV6 _ =>
        exact ((publish_all_core ctx rule isV6 _).2.2.2.2.2.1).trans rfl
    · split
      · split
        · obtain ⟨_, _, _, _, _, _, h7, _, _⟩ := unpublish_group_spec s
          exact h7
        · rfl
      · next isV6 _ =>
        split
        · exact (publish_all_core ctx rule isV6 s).2.2.2.2.2.1
        · next oldV6 _ =>
          split
          · rfl
          · refine Eq.trans ((publish_all_core ctx rule isV6 _).2.2.2.2.2.1) ?_
            split
            · exact (unpub_notify_core s).2.2.2.2.2.1
            · rfl

theorem relOpt_cfgFam (no : Option String) (s : GRun) : CfgFam s (relOpt no s) :=
  cfgFam_of_frame (relOpt_frame no s)

theorem cfgFam_ite {c : Prop} [Decidable c] {f : GRun → GRun}
    (hf : ∀ t, CfgFam t (f t)) (t : GRun) :
    CfgFam t (if c then f t else t) := by
  split
  · exact hf t
  · exact cfgFam_refl t

theorem change_cntg_cfgFam (ctx : Ctx) (ar : PmfRule) (s : GRun) :
    CfgFam s (pmf_arlg_rule_change_cntg ctx ar s) := by
  unfold pmf_arlg_rule_change_cntg
  split
  · exact cfgFam_trans (create_cntg_cfgFam ar s) (attr_check_cfgFam ctx (some ar) _)
  · next cg heq =>
    split
    · refine cfgFam_trans (cfgFam_of_frame (delete_cntg_frame s)) ?_
      exact ⟨rfl, rfl, rfl, fun h hp => h hp⟩
    · dsimp only
      split
      all_goals split
      · -- NAMED requested, type changed
        refine cfgFam_trans (attr_check_cfgFam ctx none s) ?_
        refine cfgFam_trans (cfgFam_of_frame (delete_cntg_frame _)) ?_
        refine cfgFam_trans (t := setCntg none _)
          ⟨rfl, rfl, rfl, fun h hp => h hp⟩ ?_
        refine cfgFam_trans (create_cntg_cfgFam ar _) ?_
        exact attr_check_cfgFam ctx (some ar) _
      · -- NAMED requested, same type: adjust the named counter set
        rw [if_neg (by decide)]
        refine cfgFam_trans (cfgFam_of_frame (find_and_retain_frame acceptName s)) ?_
        refine cfgFam_trans (cfgFam_of_frame (find_and_retain_frame dropName
          (gpc_cntr_find_and_retain acceptName s).2)) ?_
        split
        · exact cfgFam_trans (relOpt_cfgFam _ _) (relOpt_cfgFam _ _)
        · refine cfgFam_trans (attr_check_cfgFam ctx none _) ?_
          refine cfgFam_trans (cfgFam_of_frame (ccrIf_frame
            (ar.summary.countDefPass &&
                !(gpc_cntr_find_and_retain acceptName s).1.isSome ||
              ar.summary.countDefDrop &&
                !(gpc_cntr_find_and_retain dropName
                  (gpc_cntr_find_and_retain acceptName s).2).1.isSome) ar _)) ?_
          refine cfgFam_trans (cfgFam_of_frame (relIf_frame
            ((gpc_cntr_find_and_retain acceptName s).1.isSome &&
              !ar.summary.countDefPass) acceptName _)) ?_
          refine cfgFam_trans (cfgFam_of_frame (relIf_frame
            ((gpc_cntr_find_and_retain dropName
                (gpc_cntr_find_and_retain acceptName s).2).1.isSome &&
              !ar.summary.countDefDrop) dropName _)) ?_
          refine cfgFam_trans (attr_check_cfgFam ctx (some ar) _) ?_
          exact cfgFam_trans (relOpt_cfgFam _ _) (relOpt_cfgFam _ _)
      · -- NUMBERED requested, type changed
        refine cfgFam_trans (attr_check_cfgFam ctx none s) ?_
        refine cfgFam_trans (cfgFam_of_frame (delete_cntg_frame _)) ?_
        refine cfgFam_trans (t := setCntg none _)
          ⟨rfl, rfl, rfl, fun h hp => h hp⟩ ?_
        refine cfgFam_trans (create_cntg_cfgFam ar _) ?_
        exact attr_check_cfgFam ctx (some ar) _
      · -- NUMBERED requested, same type: nothing to do
        exact cfgFam_refl s


theorem ruleUpdFirst_length (rs : List GpcRule) (idx : Nat)
    (f : GpcRule → GpcRule) : (ruleUpdFirst rs idx f).length = rs.length := by
  induction rs with
  | nil => rfl
  | cons r t ih =>
    unfold ruleUpdFirst
    split
    · simp
    · simp [ih]

theorem ruleRemoveFirst_length (rs : List GpcRule) (idx : Nat)
    (h : (rs.find? (fun r => r.idx == idx)).isSome = true) :
    (ruleRemoveFirst rs idx).length + 1 = rs.length := by
  induction rs with
  | nil => simp [List.find?] at h
  | cons r t ih =>
    unfold ruleRemoveFirst
    by_cases hr : (r.idx == idx) = true
    · simp [hr]
    · rw [List.find?_cons_of_neg _ (by simp [hr])] at h
      simp [hr, ih h]

/-- The group fields other than the rule list contents and the counter
group that the per-rule operations leave unchanged. -/
def FrameLen (s t : GRun) : Prop :=
  t.g.published = s.g.published ∧ t.g.family = s.g.family ∧
  t.g.attrFlag = s.g.attrFlag ∧ t.g.attrRule = s.g.attrRule ∧
  t.g.numRules = s.g.numRules ∧ t.g.rules.length = s.g.rules.length ∧
  t.g.deferred = s.g.deferred ∧ t.defr = s.defr

theorem frameLen_refl (s : GRun) : FrameLen s s :=
  ⟨rfl, rfl, rfl, rfl, rfl, rfl, rfl, rfl⟩

theorem frameLen_trans {s t u : GRun} (h1 : FrameLen s t) (h2 : FrameLen t u) :
    FrameLen s u := by
  obtain ⟨a1, a2, a3, a4, a5, a6, a7, a8⟩ := h1
  obtain ⟨b1, b2, b3, b4, b5, b6, b7, b8⟩ := h2
  exact ⟨b1.trans a1, b2.trans a2, b3.trans a3, b4.trans a4, b5.trans a5,
    b6.trans a6, b7.trans a7, b8.trans a8⟩

theorem frameLen_of_frame {s t : GRun} (h : Frame s t) : FrameLen s t := by
  obtain ⟨p, c1, c2, c3, c4, c5, c6, c7, c8⟩ := h
  exact ⟨p, c1, c2, c3, c4, c5, c7, c8⟩

theorem cfgFam_of_frameLen {s t : GRun} (h : FrameLen s t) : CfgFam s t :=
  ⟨h.2.2.2.1, h.2.2.2.2.1, h.2.2.2.2.2.1, pubFam_of_eq h.1 h.2.1⟩

theorem frameLen_updFirst (s : GRun) (idx : Nat) (f : GpcRule → GpcRule) :
    FrameLen s { s with g := { s.g with rules := ruleUpdFirst s.g.rules idx f } } :=
  ⟨rfl, rfl, rfl, rfl, rfl, ruleUpdFirst_length s.g.rules idx f, rfl, rfl⟩

theorem change_rule_first_frameLen (idx : Nat) (rule : PmfRule) (s : GRun) :
    FrameLen s (gpc_rule_change_rule_first idx rule s) := by
  unfold gpc_rule_change_rule_first
  split
  · exact frameLen_refl s
  · split
    · split
      · refine frameLen_trans
          (frameLen_updFirst s idx (fun x => { x with payload := some rule })) ?_
        exact ⟨rfl, rfl, rfl, rfl, rfl, rfl, rfl, rfl⟩
      · refine frameLen_trans (frameLen_updFirst s idx
          (fun x => { x with payload := some rule, published := true })) ?_
        exact ⟨rfl, rfl, rfl, rfl, rfl, rfl, rfl, rfl⟩
    · exact frameLen_updFirst s idx (fun x => { x with payload := some rule })

theorem rule_hw_delete_frameLen (idx : Nat) (s : GRun) :
    FrameLen s (gpc_rule_hw_ntfy_delete idx s) := by
  unfold gpc_rule_hw_ntfy_delete
  split
  · exact frameLen_refl s
  · split
    · refine frameLen_trans
        (frameLen_updFirst s idx (fun x => { x with published := false })) ?_
      exact ⟨rfl, rfl, rfl, rfl, rfl, rfl, rfl, rfl⟩
    · exact frameLen_refl s

theorem acquireCntr_frame (rule : PmfRule) (rlIdx : Nat) (s : GRun) :
    Frame s (acquireCntr rule rlIdx s).2 := by
  unfold acquireCntr
  split
  · split
    · exact rule_get_cntr_frame rule rlIdx s
    · exact frame_refl s
  · exact frame_refl s

theorem adjustCntr_frameLen (rule : PmfRule) (rlIdx : Nat) (gprl : GpcRule)
    (s : GRun) : FrameLen s (adjustCntr rule rlIdx gprl s).2 := by
  unfold adjustCntr
  split
  · exact frameLen_refl s
  · split
    · exact frameLen_refl s
    · split
      · refine frameLen_trans
          (frameLen_of_frame (rule_get_cntr_frame rule rlIdx s)) ?_
        refine frameLen_trans (frameLen_updFirst _ rlIdx
          (fun x => { x with cntr := (pmf_arlg_rule_get_cntr rule rlIdx s).1 })) ?_
        exact frameLen_of_frame (cntr_hw_create_frame _ _)
      · split
        · dsimp only
          split
          · exact frameLen_trans
              (frameLen_of_frame (rule_get_cntr_frame rule 0 s))
              (frameLen_of_frame (relOpt_frame _ _))
          · refine frameLen_trans
              (frameLen_of_frame (rule_get_cntr_frame rule 0 s)) ?_
            refine frameLen_trans (frameLen_updFirst _ rlIdx
              (fun x => { x with cntr := (pmf_arlg_rule_get_cntr rule 0 s).1 })) ?_
            exact frameLen_of_frame (cntr_hw_create_frame _ _)
        · exact frameLen_refl s


theorem rl_add_spec (ctx : Ctx) (rule : PmfRule) (rlIdx : Nat) (s : GRun) :
    (PubFam s → PubFam (pmf_arlg_rl_add ctx rule rlIdx s).1) ∧
    ((rlIdx == ATTR_RULE_INDEX) = true →
      (pmf_arlg_rl_add ctx rule rlIdx s).1.g.numRules = s.g.numRules ∧
      (pmf_arlg_rl_add ctx rule rlIdx s).1.g.rules.length = s.g.rules.length) ∧
    ((rlIdx == ATTR_RULE_INDEX) = false →
      (pmf_arlg_rl_add ctx rule rlIdx s).1.g.numRules = inc32 s.g.numRules ∧
      (pmf_arlg_rl_add ctx rule rlIdx s).1.g.rules.length
        = s.g.rules.length + 1) := by
  unfold pmf_arlg_rl_add
  split
  · next hattr =>
    split
    · exact ⟨fun h => h, fun _ => ⟨rfl, rfl⟩,
        fun hfalse => by rw [hattr] at hfalse; cases hfalse⟩
    · have hcfg := cfgFam_trans (create_cntg_cfgFam rule s)
        (attr_check_cfgFam ctx (some rule) (pmf_arlg_rule_create_cntg rule s))
      obtain ⟨_, hnum, hlen, hpf⟩ := hcfg
      refine ⟨fun h hp => hpf h hp, fun _ => ⟨hnum, hlen⟩,
        fun hfalse => by rw [hattr] at hfalse; cases hfalse⟩
  · next hattr =>
    simp only [Bool.not_eq_true] at hattr
    dsimp only
    have h2 := frameLen_of_frame (acquireCntr_frame rule rlIdx
      { s with g := { s.g with numRules := inc32 s.g.numRules } })
    have h3 := frameLen_of_frame (cntr_hw_create_frame
      (acquireCntr rule rlIdx
        { s with g := { s.g with numRules := inc32 s.g.numRules } }).1
      (acquireCntr rule rlIdx
        { s with g := { s.g with numRules := inc32 s.g.numRules } }).2)
    have h23 := frameLen_trans h2 h3
    obtain ⟨p, cf, _, _, hnum, hlen, _, _⟩ := h23
    constructor
    · intro h
      have hs1 : PubFam { s with g := { s.g with numRules := inc32 s.g.numRules } } :=
        fun hp => h hp
      have hpf3 : PubFam (gpc_cntr_hw_ntfy_create
          (acquireCntr rule rlIdx
            { s with g := { s.g with numRules := inc32 s.g.numRules } }).1
          (acquireCntr rule rlIdx
            { s with g := { s.g with numRules := inc32 s.g.numRules } }).2) :=
        pubFam_of_eq p cf hs1
      split
      · exact fun hp => hpf3 hp
      · exact fun hp => hpf3 hp
    constructor
    · intro htrue
      rw [htrue] at hattr
      cases hattr
    · intro _
      constructor
      · split
        · exact hnum
        · exact hnum
      · split
        · simp [emit, hlen]
        · simp [hlen]

theorem modifyIf_frame (b : Bool) (s : GRun) : Frame s (modifyIf b s) := by
  unfold modifyIf
  split
  · exact modify_frame s
  · exact frame_refl s

theorem ruleUpdFirst_find_isSome (rs : List GpcRule) (idx : Nat)
    (f : GpcRule → GpcRule) (hf : ∀ r, (f r).idx = r.idx) :
    ((ruleUpdFirst rs idx f).find? (fun r => r.idx == idx)).isSome
      = (rs.find? (fun r => r.idx == idx)).isSome := by
  induction rs with
  | nil => rfl
  | cons r t ih =>
    unfold ruleUpdFirst
    by_cases hr : (r.idx == idx) = true
    · rw [if_pos hr]
      have h1 : ((f r).idx == idx) = true := by rw [hf r]; exact hr
      have e1 : List.find? (fun x => x.idx == idx) (f r :: t) = some (f r) :=
        List.find?_cons_of_pos t h1
      have e2 : List.find? (fun x => x.idx == idx) (r :: t) = some r :=
        List.find?_cons_of_pos t hr
      rw [e1, e2]
      rfl
    · rw [if_neg hr]
      have e1 : List.find? (fun x => x.idx == idx) (r :: ruleUpdFirst t idx f)
          = List.find? (fun x => x.idx == idx) (ruleUpdFirst t idx f) :=
        List.find?_cons_of_neg (ruleUpdFirst t idx f) (by simp_all)
      have e2 : List.find? (fun x => x.idx == idx) (r :: t)
          = List.find? (fun x => x.idx == idx) t :=
        List.find?_cons_of_neg t (by simp_all)
      rw [e1, e2]
      exact ih

theorem rule_hw_delete_find (idx : Nat) (s : GRun) :
    ((gpc_rule_hw_ntfy_delete idx s).g.rules.find?
        (fun r => r.idx == idx)).isSome
      = (s.g.rules.find? (fun r => r.idx == idx)).isSome := by
  unfold gpc_rule_hw_ntfy_delete
  split
  · rfl
  · split
    · simp only [emit]
      exact ruleUpdFirst_find_isSome s.g.rules idx
        (fun x => { x with published := false }) (fun r => rfl)
    · rfl

theorem decNumRules_facts (s : GRun) :
    (decNumRules s).g.published = s.g.published ∧
    (decNumRules s).g.family = s.g.family ∧
    (decNumRules s).g.numRules = dec32 s.g.numRules ∧
    (decNumRules s).g.rules = s.g.rules :=
  ⟨rfl, rfl, rfl, rfl⟩

theorem gpc_rule_delete_facts (rlIdx : Nat) (s : GRun) :
    (gpc_rule_delete rlIdx s).g.published = s.g.published ∧
    (gpc_rule_delete rlIdx s).g.family = s.g.family ∧
    (gpc_rule_delete rlIdx s).g.numRules = s.g.numRules ∧
    (gpc_rule_delete rlIdx s).g.rules = ruleRemoveFirst s.g.rules rlIdx :=
  ⟨rfl, rfl, rfl, rfl⟩

theorem delOrdinary_spec (rlIdx : Nat) (gprl : GpcRule) (s : GRun)
    (h : (gpc_rule_find s.g rlIdx).isSome = true) :
    (delOrdinary rlIdx gprl s).g.published = s.g.published ∧
    (delOrdinary rlIdx gprl s).g.family = s.g.family ∧
    (delOrdinary rlIdx gprl s).g.numRules = dec32 s.g.numRules ∧
    (delOrdinary rlIdx gprl s).g.rules.length + 1 = s.g.rules.length := by
  unfold delOrdinary
  dsimp only
  have h2 := rule_hw_delete_frameLen rlIdx (decNumRules s)
  have h3 := gpc_rule_delete_facts rlIdx (gpc_rule_hw_ntfy_delete rlIdx (decNumRules s))
  have h4 := frameLen_of_frame (relOpt_frame gprl.cntr
    (gpc_rule_delete rlIdx (gpc_rule_hw_ntfy_delete rlIdx (decNumRules s))))
  have h5 := frameLen_of_frame (modifyIf_frame (gpc_group_get_summary s.g != 0)
    (relOpt gprl.cntr
      (gpc_rule_delete rlIdx (gpc_rule_hw_ntfy_delete rlIdx (decNumRules s)))))
  have h1 := decNumRules_facts s
  have hfind2 : ((gpc_rule_hw_ntfy_delete rlIdx
      (decNumRules s)).g.rules.find? (fun r => r.idx == rlIdx)).isSome = true := by
    rw [rule_hw_delete_find]
    have : (decNumRules s).g.rules = s.g.rules := h1.2.2.2
    rw [this]
    exact h
  have hrm := ruleRemoveFirst_length
    (gpc_rule_hw_ntfy_delete rlIdx (decNumRules s)).g.rules rlIdx hfind2
  refine ⟨?_, ?_, ?_, ?_⟩
  · exact h5.1.trans (h4.1.trans (h3.1.trans (h2.1.trans h1.1)))
  · exact h5.2.1.trans (h4.2.1.trans (h3.2.1.trans (h2.2.1.trans h1.2.1)))
  · exact h5.2.2.2.2.1.trans (h4.2.2.2.2.1.trans
      (h3.2.2.1.trans (h2.2.2.2.2.1.trans h1.2.2.1)))
  · have e1 : (modifyIf (gpc_group_get_summary s.g != 0)
        (relOpt gprl.cntr (gpc_rule_delete rlIdx
          (gpc_rule_hw_ntfy_delete rlIdx (decNumRules s))))).g.rules.length
        = (ruleRemoveFirst (gpc_rule_hw_ntfy_delete rlIdx
            (decNumRules s)).g.rules rlIdx).length := by
      refine h5.2.2.2.2.2.1.trans (h4.2.2.2.2.2.1.trans ?_)
      rw [h3.2.2.2]
    rw [e1, hrm]
    have : (decNumRules s).g.rules = s.g.rules := h1.2.2.2
    rw [h2.2.2.2.2.2.1]
    rw [this]

theorem rl_chg_spec (ctx : Ctx) (rule : PmfRule) (rlIdx : Nat) (s : GRun) :
    (PubFam s → PubFam (pmf_arlg_rl_chg ctx rule rlIdx s).1) ∧
    (pmf_arlg_rl_chg ctx rule rlIdx s).1.g.numRules = s.g.numRules ∧
    (pmf_arlg_rl_chg ctx rule rlIdx s).1.g.rules.length = s.g.rules.length := by
  unfold pmf_arlg_rl_chg
  split
  · split
    · exact ⟨fun h => h, rfl, rfl⟩
    · obtain ⟨_, hnum, hlen, hpf⟩ := change_cntg_cfgFam ctx rule s
      exact ⟨fun h hp => hpf h hp, hnum, hlen⟩
  · split
    · exact ⟨fun h => h, rfl, rfl⟩
    · next gprl heq =>
      dsimp only
      have h1 := adjustCntr_frameLen rule rlIdx gprl s
      have h2 := change_rule_first_frameLen rlIdx rule
        (adjustCntr rule rlIdx gprl s).2
      have h3 := frameLen_of_frame (modifyIf_frame
        (gpc_group_get_summary (adjustCntr rule rlIdx gprl s).2.g != 0)
        (gpc_rule_change_rule_first rlIdx rule (adjustCntr rule rlIdx gprl s).2))
      have h4 := frameLen_of_frame (relOpt_frame (adjustCntr rule rlIdx gprl s).1
        (modifyIf (gpc_group_get_summary (adjustCntr rule rlIdx gprl s).2.g != 0)
          (gpc_rule_change_rule_first rlIdx rule (adjustCntr rule rlIdx gprl s).2)))
      obtain ⟨p, cf, _, _, hnum, hlen, _, _⟩ :=
        frameLen_trans h1 (frameLen_trans h2 (frameLen_trans h3 h4))
      exact ⟨pubFam_of_eq p cf, hnum, hlen⟩

theorem rl_del_spec (ctx : Ctx) (rlIdx : Nat) (s : GRun) :
    (PubFam s → PubFam (pmf_arlg_rl_del ctx rlIdx s).1) ∧
    ((rlIdx == ATTR_RULE_INDEX) = true →
      (pmf_arlg_rl_del ctx rlIdx s).1.g.numRules = s.g.numRules ∧
      (pmf_arlg_rl_del ctx rlIdx s).1.g.rules.length = s.g.rules.length) ∧
    ((rlIdx == ATTR_RULE_INDEX) = false →
      ((gpc_rule_find s.g rlIdx).isSome = false →
        (pmf_arlg_rl_del ctx rlIdx s) = (s, false)) ∧
      ((gpc_rule_find s.g rlIdx).isSome = true →
        (pmf_arlg_rl_del ctx rlIdx s).1.g.numRules = dec32 s.g.numRules ∧
        (pmf_arlg_rl_del ctx rlIdx s).1.g.rules.length + 1
          = s.g.rules.length)) := by
  unfold pmf_arlg_rl_del
  split
  · next hattr =>
    split
    · exact ⟨fun h => h, fun _ => ⟨rfl, rfl⟩,
        fun hfalse => by rw [hattr] at hfalse; cases hfalse⟩
    · dsimp only
      obtain ⟨_, hnum, hlen, hpf⟩ := attr_check_cfgFam ctx none s
      refine ⟨?_, ?_, fun hfalse => by rw [hattr] at hfalse; cases hfalse⟩
      · intro h
        split
        · have hd := frameLen_of_frame (delete_cntg_frame
            { pmf_arlg_rl_attr_check ctx none s with g :=
              { (pmf_arlg_rl_attr_check ctx none s).g with attrRule := none } })
          intro hp
          have hp2 : (pmf_arlg_rl_attr_check ctx none s).g.published = true :=
            (hd.1.symm.trans rfl) ▸ hp
          have hf := hpf h hp2
          show (pmf_arlg_rule_delete_cntg _).g.family.isSome = true
          rw [hd.2.1]
          exact hf
        · intro hp
          exact hpf h hp
      · intro _
        constructor
        · split
          · have hd := frameLen_of_frame (delete_cntg_frame
              { pmf_arlg_rl_attr_check ctx none s with g :=
                { (pmf_arlg_rl_attr_check ctx none s).g with attrRule := none } })
            exact (hd.2.2.2.2.1.trans rfl).trans hnum
          · exact hnum
        · split
          · have hd := frameLen_of_frame (delete_cntg_frame
              { pmf_arlg_rl_attr_check ctx none s with g :=
                { (pmf_arlg_rl_attr_check ctx none s).g with attrRule := none } })
            exact (hd.2.2.2.2.2.1.trans rfl).trans hlen
          · exact hlen
  · next hattr =>
    simp only [Bool.not_eq_true] at hattr
    split
    · next heq =>
      refine ⟨fun h => h, ?_, ?_⟩
      · intro htrue
        rw [hattr] at htrue
        cases htrue
      · intro _
        refine ⟨fun _ => rfl, ?_⟩
        intro hsome
        rw [heq] at hsome
        cases hsome
    · next gprl heq =>
      have hsome : (gpc_rule_find s.g rlIdx).isSome = true := by
        rw [heq]
        rfl
      obtain ⟨hp, hf, hn, hl⟩ := delOrdinary_spec rlIdx gprl s hsome
      refine ⟨fun h => pubFam_of_eq hp hf h, ?_, ?_⟩
      · intro htrue
        rw [hattr] at htrue
        cases htrue
      · intro _
        refine ⟨?_, fun _ => ⟨hn, hl⟩⟩
        intro hnone
        rw [heq] at hnone
        cases hnone

/-! ### The system-level published-implies-family invariant -/

/-- A published group always carries an address family. -/
def SysPubFam (s : Sys) : Prop :=
  ∀ g, s.grp = some g → g.published = true → g.family.isSome = true

theorem runGrpOp_pubFam (f : Ctx → GRun → GRun × Bool)
    (hf : ∀ c gr, PubFam gr → PubFam (f c gr).1) (s : Sys)
    (h : SysPubFam s) : SysPubFam (runGrpOp f s) := by
  unfold runGrpOp
  split
  · exact h
  · next g hg =>
    intro g2 hg2
    have he : (f s.ctx { g := g, evs := [], defr := s.deferrals }).1.g = g2 := by
      injection hg2
    subst he
    exact hf s.ctx { g := g, evs := [], defr := s.deferrals }
      (fun hq => h g hg hq)

theorem commit_deferrals_pubFam (s : Sys) (h : SysPubFam s) :
    SysPubFam (pmf_arlg_commit_deferrals s) := by
  unfold pmf_arlg_commit_deferrals
  split
  · exact h
  · next g hg =>
    split
    · dsimp only
      intro g2 hg2
      have he : (gpc_group_hw_ntfy_attach s.ctx
          (gpc_group_hw_ntfy_rules_create
            (gpc_cntg_hw_ntfy_cntrs_create
              (gpc_group_hw_ntfy_create s.ctx g.attrRule
                { g := { g with deferred := false }, evs := [],
                  defr := s.deferrals })))).g = g2 := by
        injection hg2
      subst he
      have h0 : PubFam
          { g := { g with deferred := false }, evs := [], defr := s.deferrals } :=
        fun hq => h g hg hq
      have h1 := hw_create_pubFam s.ctx g.attrRule _ h0
      have h2 := pubFam_of_frame (cntrs_create_frame _) h1
      have h3 := pubFam_of_frame (rules_create_frame _) h2
      exact pubFam_of_frame (attach_frame s.ctx _) h3
    · exact h

theorem commit_pubFam (s : Sys) (h : SysPubFam s) :
    SysPubFam (pmf_arlg_commit s) := by
  unfold pmf_arlg_commit pmf_hw_commit
  dsimp only
  split
  · intro g2 hg2
    exact commit_deferrals_pubFam s h g2 hg2
  · intro g2 hg2
    exact h g2 hg2

theorem step_pubFam (s : Sys) (e : Ev) (h : SysPubFam s) :
    SysPubFam (step s e) := by
  cases e with
  | ruleAdd rule idx =>
    exact runGrpOp_pubFam _ (fun c gr => (rl_add_spec c rule idx gr).1) s h
  | ruleChg rule idx =>
    exact runGrpOp_pubFam _ (fun c gr => (rl_chg_spec c rule idx gr).1) s h
  | ruleDel idx =>
    exact runGrpOp_pubFam _ (fun c gr => (rl_del_spec c idx gr).1) s h
  | grpRemove =>
    show SysPubFam (grpRemoveSys s)
    unfold grpRemoveSys
    split
    · exact h
    · intro g2 hg2
      exact Option.noConfusion hg2
  | commit => exact commit_pubFam s h

theorem runEvs_pubFam (s : Sys) (evs : List Ev) (h : SysPubFam s) :
    SysPubFam (runEvs s evs) := by
  induction evs generalizing s with
  | nil => exact h
  | cons e t ih => exact ih (step s e) (step_pubFam s e h)

/-! ### Concrete sample rules -/

/-- A rule summary with no counter or action bits set. -/
def plainSummary : RuleSummary :=
  { countRef := false, countDef := false, countDefPass := false,
    countDefDrop := false, actPass := false, actDrop := false }

/-- An attribute rule whose match specifies IPv4 and no counters. -/
def arV4 : PmfRule := { summary := plainSummary, ipfam := some false }

/-- An attribute rule whose match specifies IPv6 and no counters. -/
def arV6 : PmfRule := { summary := plainSummary, ipfam := some true }

/-- An ordinary (non-attribute) rule with no counters and no family. -/
def arPlain : PmfRule := { summary := plainSummary, ipfam := none }

/-! ### Teardown notification ordering -/

/-- A list of hardware notifications that tears a group down in dependency
order: detach notifications first, then rule deletions, then counter
deletions, then group deletions. -/
def TeardownOrdered (l : List HwEv) : Prop :=
  ∃ l0 l1 l2 l3,
    l = l0 ++ l1 ++ l2 ++ l3 ∧
    (∀ e ∈ l0, e = HwEv.grpDetach) ∧
    (∀ e ∈ l1, ∃ i, e = HwEv.ruleDelete i) ∧
    (∀ e ∈ l2, ∃ nm, e = HwEv.cntrDelete nm) ∧
    (∀ e ∈ l3, e = HwEv.grpDelete)

/-- The notifications an operation appends all satisfy `K`. -/
def EmitsKind (f : GRun → GRun) (K : HwEv → Prop) : Prop :=
  ∀ s, ∃ l, (f s).evs = s.evs ++ l ∧ ∀ e ∈ l, K e

theorem emitsKind_id (K : HwEv → Prop) : EmitsKind (fun s => s) K := by
  intro s
  exact ⟨[], by simp, by simp⟩

theorem emitsKind_comp {f g : GRun → GRun} {K : HwEv → Prop}
    (hf : EmitsKind f K) (hg : EmitsKind g K) :
    EmitsKind (fun s => g (f s)) K := by
  intro s
  obtain ⟨a, ha, hka⟩ := hf s
  obtain ⟨b, hb, hkb⟩ := hg (f s)
  refine ⟨a ++ b, ?_, ?_⟩
  · rw [hb, ha, List.append_assoc]
  · intro e he
    rcases List.mem_append.mp he with h | h
    · exact hka e h
    · exact hkb e h

theorem detach_evs (s : GRun) :
    ∃ l, (gpc_group_hw_ntfy_detach s).evs = s.evs ++ l ∧
      ∀ e ∈ l, e = HwEv.grpDetach := by
  unfold gpc_group_hw_ntfy_detach
  split
  · exact ⟨[HwEv.grpDetach], rfl, by simp⟩
  · exact ⟨[], by simp, by simp⟩

theorem rules_delete_evs (s : GRun) :
    ∃ l, (gpc_group_hw_ntfy_rules_delete s).evs = s.evs ++ l ∧
      ∀ e ∈ l, ∃ i, e = HwEv.ruleDelete i := by
  unfold gpc_group_hw_ntfy_rules_delete
  refine ⟨_, rfl, ?_⟩
  intro e he
  obtain ⟨r, _, hr⟩ := List.mem_map.mp he
  exact ⟨r.idx, hr.symm⟩

theorem cntrs_delete_evs (s : GRun) :
    ∃ l, (gpc_cntg_hw_ntfy_cntrs_delete s).evs = s.evs ++ l ∧
      ∀ e ∈ l, ∃ nm, e = HwEv.cntrDelete nm := by
  unfold gpc_cntg_hw_ntfy_cntrs_delete
  split
  · exact ⟨[], by simp, by simp⟩
  · refine ⟨_, rfl, ?_⟩
    intro e he
    obtain ⟨c, _, hc⟩ := List.mem_map.mp he
    exact ⟨c.name, hc.symm⟩

theorem hw_delete_evs (s : GRun) :
    ∃ l, (gpc_group_hw_ntfy_delete s).evs = s.evs ++ l ∧
      ∀ e ∈ l, e = HwEv.grpDelete := by
  unfold gpc_group_hw_ntfy_delete
  split
  · exact ⟨[HwEv.grpDelete], rfl, by simp⟩
  · exact ⟨[], by simp, by simp⟩

theorem release_evs (nm : String) :
    EmitsKind (gpc_cntr_release nm) (fun e => ∃ nm2, e = HwEv.cntrDelete nm2) := by
  intro s
  unfold gpc_cntr_release
  split
  · exact ⟨[], by simp, by simp⟩
  · split
    · exact ⟨[], by simp, by simp⟩
    · split
      · exact ⟨[], by simp [setCntg], by simp⟩
      · refine ⟨_, rfl, ?_⟩
        intro e he
        split at he
        · rw [List.mem_singleton.mp he]
          exact ⟨nm, rfl⟩
        · cases he

theorem foldl_release_evs {α : Type} (f : GRun → α → GRun)
    (hf : ∀ s a, ∃ l, (f s a).evs = s.evs ++ l ∧
      ∀ e ∈ l, ∃ nm2, e = HwEv.cntrDelete nm2) (xs : List α) :
    EmitsKind (fun s => xs.foldl f s)
      (fun e => ∃ nm2, e = HwEv.cntrDelete nm2) := by
  induction xs with
  | nil => exact emitsKind_id _
  | cons x t ih =>
    intro s
    obtain ⟨a, ha, hka⟩ := hf s x
    obtain ⟨b, hb, hkb⟩ := ih (f s x)
    refine ⟨a ++ b, ?_, ?_⟩
    · show ((t.foldl f (f s x)).evs) = _
      rw [hb, ha, List.append_assoc]
    · intro e he
      rcases List.mem_append.mp he with h | h
      · exact hka e h
      · exact hkb e h

theorem delete_cntg_evs :
    EmitsKind pmf_arlg_rule_delete_cntg
      (fun e => ∃ nm2, e = HwEv.cntrDelete nm2) := by
  intro s
  unfold pmf_arlg_rule_delete_cntg
  split
  · exact ⟨[], by simp, by simp⟩
  · split
    · exact foldl_release_evs _ (fun s nm => release_evs nm s) _ s
    · exact ⟨[], by simp, by simp⟩

theorem releaseLastLoop_evs (fuel : Nat) :
    EmitsKind (releaseLastLoop fuel)
      (fun e => ∃ nm2, e = HwEv.cntrDelete nm2) := by
  induction fuel with
  | zero => exact emitsKind_id _
  | succ n ih =>
    intro s
    show ∃ l, (releaseLastLoop (n + 1) s).evs = s.evs ++ l ∧ _
    unfold releaseLastLoop
    split
    · exact ⟨[], by simp, by simp⟩
    · split
      · exact ⟨[], by simp, by simp⟩
      · next c _ =>
        obtain ⟨a, ha, hka⟩ := release_evs c.name s
        obtain ⟨b, hb, hkb⟩ := ih (gpc_cntr_release c.name s)
        refine ⟨a ++ b, ?_, ?_⟩
        · rw [hb, ha, List.append_assoc]
        · intro e he
          rcases List.mem_append.mp he with h | h
          · exact hka e h
          · exact hkb e h

theorem grpRemoveRuleFold_evs :
    EmitsKind grpRemoveRuleFold
      (fun e => ∃ nm2, e = HwEv.cntrDelete nm2) := by
  intro s
  unfold grpRemoveRuleFold
  refine foldl_release_evs _ ?_ s.g.rules.reverse s
  intro t r
  dsimp only
  split
  · exact release_evs _ _
  · exact ⟨[], by simp, by simp⟩

theorem grpRemoveNamedRelease_evs :
    EmitsKind grpRemoveNamedRelease
      (fun e => ∃ nm2, e = HwEv.cntrDelete nm2) := by
  intro s
  unfold grpRemoveNamedRelease
  split
  · split
    · exact releaseLastLoop_evs _ s
    · exact ⟨[], by simp, by simp⟩
  · exact ⟨[], by simp, by simp⟩

theorem unpub_notify_evs (s : GRun) :
    ∃ l, (pmf_arlg_unpub_notify s).evs = s.evs ++ l ∧ TeardownOrdered l := by
  obtain ⟨a, ha, hka⟩ := detach_evs s
  obtain ⟨b, hb, hkb⟩ := rules_delete_evs (gpc_group_hw_ntfy_detach s)
  obtain ⟨c, hc, hkc⟩ := cntrs_delete_evs
    (gpc_group_hw_ntfy_rules_delete (gpc_group_hw_ntfy_detach s))
  obtain ⟨d, hd, hkd⟩ := hw_delete_evs
    (gpc_cntg_hw_ntfy_cntrs_delete
      (gpc_group_hw_ntfy_rules_delete (gpc_group_hw_ntfy_detach s)))
  refine ⟨a ++ b ++ c ++ d, ?_, a, b, c, d, rfl, hka, hkb, hkc, hkd⟩
  show (gpc_group_hw_ntfy_delete _).evs = _
  rw [hd, hc, hb, ha]
  simp [List.append_assoc]

theorem grp_remove_evs (s : GRun) :
    ∃ l, (pmf_arlg_grp_remove s).evs = s.evs ++ l ∧ TeardownOrdered l := by
  obtain ⟨a, ha, hka⟩ := detach_evs s
  obtain ⟨b, hb, hkb⟩ := rules_delete_evs (gpc_group_hw_ntfy_detach s)
  obtain ⟨c, hc, hkc⟩ := cntrs_delete_evs
    (gpc_group_hw_ntfy_rules_delete (gpc_group_hw_ntfy_detach s))
  obtain ⟨c2, hc2, hkc2⟩ := grpRemoveRuleFold_evs
    (gpc_cntg_hw_ntfy_cntrs_delete
      (gpc_group_hw_ntfy_rules_delete (gpc_group_hw_ntfy_detach s)))
  obtain ⟨c3, hc3, hkc3⟩ := grpRemoveNamedRelease_evs
    (grpRemoveRuleFold
      (gpc_cntg_hw_ntfy_cntrs_delete
        (gpc_group_hw_ntfy_rules_delete (gpc_group_hw_ntfy_detach s))))
  obtain ⟨d, hd, hkd⟩ := hw_delete_evs
    (grpRemoveClear
      (grpRemoveNamedRelease
        (grpRemoveRuleFold
          (gpc_cntg_hw_ntfy_cntrs_delete
            (gpc_group_hw_ntfy_rules_delete (gpc_group_hw_ntfy_detach s))))))
  have hclear : ∀ t : GRun, (grpRemoveClear t).evs = t.evs := fun t => rfl
  refine ⟨a ++ b ++ (c ++ c2 ++ c3) ++ d, ?_, a, b, c ++ c2 ++ c3, d, rfl,
    hka, hkb, ?_, hkd⟩
  · show (gpc_group_hw_ntfy_delete _).evs = _
    rw [hd, hclear, hc3, hc2, hc, hb, ha]
    simp [List.append_assoc]
  · intro e he
    rcases List.mem_append.mp he with h | h
    · rcases List.mem_append.mp h with h2 | h2
      · exact hkc e h2
      · exact hkc2 e h2
    · exact hkc3 e h

theorem unpublish_group_evs (s : GRun) (hp : s.g.published = true) :
    ∃ l, (pmf_arlg_unpublish_group s).evs = s.evs ++ l ∧ TeardownOrdered l := by
  obtain ⟨l, hl, td⟩ := unpub_notify_evs s
  refine ⟨l, ?_, td⟩
  unfold pmf_arlg_unpublish_group
  rw [hp, if_pos rfl]
  exact hl

theorem initSys_pubFam (ifc ifp : Bool) : SysPubFam (initSys ifc ifp) := by
  intro g hg hp
  have he : GState.mk false false true false none false none 0 [] none = g := by
    injection hg
  rw [← he] at hp
  exact Bool.noConfusion hp

/-! ### The reconciler's unpublish paths -/

theorem attr_check_nofam_flag (ctx : Ctx) (rule : PmfRule) (t : GRun)
    (hf : t.g.attrFlag = true) (hip : rule.ipfam = none) :
    pmf_arlg_rl_attr_check ctx (some rule) t
      = (if t.g.family.isSome then pmf_arlg_unpublish_group t else t) := by
  unfold pmf_arlg_rl_attr_check
  simp [hf, hip]

/-- The group state reached from a fresh attached group by adding the IPv4
attribute rule (with the interface created and bound). -/
def gAfterAttrAdd : GState :=
  { published := true, attached := true, deferred := true, llCreated := true,
    family := some false, attrFlag := true, attrRule := some arV4,
    numRules := 0, rules := [], cntg := none }

/-- The run state holding `gAfterAttrAdd` with no queued notifications. -/
def sAttrAdded : GRun := { g := gAfterAttrAdd, evs := [], defr := true }

/-- A fully idle system: no group, nothing queued, no flags raised. -/
def sIdle : Sys :=
  { ifCreated := true, ifp := true, grp := none, queue := [], issued := [],
    deferrals := false, commitPending := false }

/-! ### Rule counting -/

/-- The number of rule-Add calls at non-attribute indices. -/
def nonAttrAdds : List Ev → Nat
  | [] => 0
  | Ev.ruleAdd _ idx :: t =>
    (if idx == ATTR_RULE_INDEX then 0 else 1) + nonAttrAdds t
  | _ :: t => nonAttrAdds t

/-- The number of rule-Delete calls at non-attribute indices. -/
def nonAttrDels : List Ev → Nat
  | [] => 0
  | Ev.ruleDel idx :: t =>
    (if idx == ATTR_RULE_INDEX then 0 else 1) + nonAttrDels t
  | _ :: t => nonAttrDels t

/-- The events are all rule operations, and every non-attribute delete
finds its target rule in the group at the moment it runs (the source
returns `-ENOENT` without decrementing the count otherwise). -/
def ruleEvsOk : Sys → List Ev → Bool
  | _, [] => true
  | s, e :: t =>
    (match e with
     | Ev.ruleAdd _ _ => true
     | Ev.ruleChg _ _ => true
     | Ev.ruleDel idx =>
       (idx == ATTR_RULE_INDEX) ||
         (match s.grp with
          | some g => (gpc_rule_find g idx).isSome
          | none => false)
     | _ => false) && ruleEvsOk (step s e) t

theorem nonAttrAdds_cons_add (rule : PmfRule) (idx : Nat) (t : List Ev) :
    nonAttrAdds (Ev.ruleAdd rule idx :: t)
      = (if idx == ATTR_RULE_INDEX then 0 else 1) + nonAttrAdds t := rfl

theorem nonAttrAdds_cons_chg (rule : PmfRule) (idx : Nat) (t : List Ev) :
    nonAttrAdds (Ev.ruleChg rule idx :: t) = nonAttrAdds t := rfl

theorem nonAttrAdds_cons_del (idx : Nat) (t : List Ev) :
    nonAttrAdds (Ev.ruleDel idx :: t) = nonAttrAdds t := rfl

theorem nonAttrDels_cons_add (rule : PmfRule) (idx : Nat) (t : List Ev) :
    nonAttrDels (Ev.ruleAdd rule idx :: t) = nonAttrDels t := rfl

theorem nonAttrDels_cons_chg (rule : PmfRule) (idx : Nat) (t : List Ev) :
    nonAttrDels (Ev.ruleChg rule idx :: t) = nonAttrDels t := rfl

theorem nonAttrDels_cons_del (idx : Nat) (t : List Ev) :
    nonAttrDels (Ev.ruleDel idx :: t)
      = (if idx == ATTR_RULE_INDEX then 0 else 1) + nonAttrDels t := rfl

theorem inc32_eq (n : Nat) (h : n ≤ 4294967294) : inc32 n = n + 1 := by
  unfold inc32
  exact Nat.mod_eq_of_lt (by omega)

theorem dec32_eq (n : Nat) (h : 1 ≤ n) : dec32 n = n - 1 := by
  unfold dec32
  rw [if_neg (by omega)]

theorem runEvs_cons (s : Sys) (e : Ev) (t : List Ev) :
    runEvs s (e :: t) = runEvs (step s e) t := rfl

theorem runGrpOp_some (f : Ctx → GRun → GRun × Bool) (s : Sys) (g0 : GState)
    (hg : s.grp = some g0) :
    (runGrpOp f s).grp
      = some (f s.ctx { g := g0, evs := [], defr := s.deferrals }).1.g := by
  unfold runGrpOp
  rw [hg]

theorem c5_aux (evs : List Ev) : ∀ (s : Sys) (g0 : GState),
    s.grp = some g0 → ruleEvsOk s evs = true →
    g0.numRules = g0.rules.length →
    g0.numRules + nonAttrAdds evs ≤ 4294967295 →
    ∃ g1, (runEvs s evs).grp = some g1 ∧
      g1.numRules = g1.rules.length ∧
      g1.numRules + nonAttrDels evs = g0.numRules + nonAttrAdds evs := by
  induction evs with
  | nil =>
    intro s g0 hg _ hinv _
    exact ⟨g0, hg, hinv, by simp [nonAttrAdds, nonAttrDels]⟩
  | cons e t ih =>
    intro s g0 hg hok hinv hbound
    unfold ruleEvsOk at hok
    rw [Bool.and_eq_true] at hok
    obtain ⟨hok1, hok2⟩ := hok
    rw [runEvs_cons]
    cases e with
    | ruleAdd rule idx =>
      have hstep : (step s (Ev.ruleAdd rule idx)).grp = some
          (pmf_arlg_rl_add s.ctx rule idx
            { g := g0, evs := [], defr := s.deferrals }).1.g :=
        runGrpOp_some _ s g0 hg
      obtain ⟨_, hattr, hord⟩ := rl_add_spec s.ctx rule idx
        { g := g0, evs := [], defr := s.deferrals }
      rw [nonAttrAdds_cons_add, nonAttrDels_cons_add]
      rw [nonAttrAdds_cons_add] at hbound
      by_cases hidx : (idx == ATTR_RULE_INDEX) = true
      · obtain ⟨hnum, hlen⟩ := hattr hidx
        have hnum2 : (pmf_arlg_rl_add s.ctx rule idx
            { g := g0, evs := [], defr := s.deferrals }).1.g.numRules
            = g0.numRules := hnum
        have hlen2 : (pmf_arlg_rl_add s.ctx rule idx
            { g := g0, evs := [], defr := s.deferrals }).1.g.rules.length
            = g0.rules.length := hlen
        have hif : (if idx == ATTR_RULE_INDEX then (0 : Nat) else 1) = 0 := by
          simp [hidx]
        rw [hif] at hbound ⊢
        obtain ⟨g1, hgg, hinv1, heq⟩ := ih (step s (Ev.ruleAdd rule idx)) _
          hstep hok2 (by rw [hnum2, hlen2, hinv]) (by rw [hnum2]; omega)
        rw [hnum2] at heq
        exact ⟨g1, hgg, hinv1, by omega⟩
      · rw [Bool.not_eq_true] at hidx
        obtain ⟨hnum, hlen⟩ := hord hidx
        have hnum2 : (pmf_arlg_rl_add s.ctx rule idx
            { g := g0, evs := [], defr := s.deferrals }).1.g.numRules
            = inc32 g0.numRules := hnum
        have hlen2 : (pmf_arlg_rl_add s.ctx rule idx
            { g := g0, evs := [], defr := s.deferrals }).1.g.rules.length
            = g0.rules.length + 1 := hlen
        have hif : (if idx == ATTR_RULE_INDEX then (0 : Nat) else 1) = 1 := by
          simp [hidx]
        rw [hif] at hbound ⊢
        have hinc : inc32 g0.numRules = g0.numRules + 1 :=
          inc32_eq g0.numRules (by omega)
        rw [hinc] at hnum2
        obtain ⟨g1, hgg, hinv1, heq⟩ := ih (step s (Ev.ruleAdd rule idx)) _
          hstep hok2 (by rw [hnum2, hlen2, hinv]) (by rw [hnum2]; omega)
        rw [hnum2] at heq
        exact ⟨g1, hgg, hinv1, by omega⟩
    | ruleChg rule idx =>
      have hstep : (step s (Ev.ruleChg rule idx)).grp = some
          (pmf_arlg_rl_chg s.ctx rule idx
            { g := g0, evs := [], defr := s.deferrals }).1.g :=
        runGrpOp_some _ s g0 hg
      obtain ⟨_, hnum, hlen⟩ := rl_chg_spec s.ctx rule idx
        { g := g0, evs := [], defr := s.deferrals }
      have hnum2 : (pmf_arlg_rl_chg s.ctx rule idx
          { g := g0, evs := [], defr := s.deferrals }).1.g.numRules
          = g0.numRules := hnum
      have hlen2 : (pmf_arlg_rl_chg s.ctx rule idx
          { g := g0, evs := [], defr := s.deferrals }).1.g.rules.length
          = g0.rules.length := hlen
      rw [nonAttrAdds_cons_chg, nonAttrDels_cons_chg]
      rw [nonAttrAdds_cons_chg] at hbound
      obtain ⟨g1, hgg, hinv1, heq⟩ := ih (step s (Ev.ruleChg rule idx)) _
        hstep hok2 (by rw [hnum2, hlen2, hinv]) (by rw [hnum2]; exact hbound)
      rw [hnum2] at heq
      exact ⟨g1, hgg, hinv1, heq⟩
    | ruleDel idx =>
      have hstep : (step s (Ev.ruleDel idx)).grp = some
          (pmf_arlg_rl_del s.ctx idx
            { g := g0, evs := [], defr := s.deferrals }).1.g :=
        runGrpOp_some _ s g0 hg
      obtain ⟨_, hattr, hord⟩ := rl_del_spec s.ctx idx
        { g := g0, evs := [], defr := s.deferrals }
      rw [nonAttrAdds_cons_del, nonAttrDels_cons_del]
      rw [nonAttrAdds_cons_del] at hbound
      by_cases hidx : (idx == ATTR_RULE_INDEX) = true
      · obtain ⟨hnum, hlen⟩ := hattr hidx
        have hnum2 : (pmf_arlg_rl_del s.ctx idx
            { g := g0, evs := [], defr := s.deferrals }).1.g.numRules
            = g0.numRules := hnum
        have hlen2 : (pmf_arlg_rl_del s.ctx idx
            { g := g0, evs := [], defr := s.deferrals }).1.g.rules.length
            = g0.rules.length := hlen
        have hif : (if idx == ATTR_RULE_INDEX then (0 : Nat) else 1) = 0 := by
          simp [hidx]
        rw [hif]
        obtain ⟨g1, hgg, hinv1, heq⟩ := ih (step s (Ev.ruleDel idx)) _
          hstep hok2 (by rw [hnum2, hlen2, hinv])
          (by rw [hnum2]; exact hbound)
        rw [hnum2] at heq
        exact ⟨g1, hgg, hinv1, by omega⟩
      · rw [Bool.not_eq_true] at hidx
        dsimp only at hok1
        rw [hidx, Bool.false_or, hg] at hok1
        have hfound : (gpc_rule_find g0 idx).isSome = true := hok1
        obtain ⟨_, hdel⟩ := hord hidx
        obtain ⟨hnum, hlen⟩ := hdel hfound
        have hnum2 : (pmf_arlg_rl_del s.ctx idx
            { g := g0, evs := [], defr := s.deferrals }).1.g.numRules
            = dec32 g0.numRules := hnum
        have hlen2 : (pmf_arlg_rl_del s.ctx idx
            { g := g0, evs := [], defr := s.deferrals }).1.g.rules.length + 1
            = g0.rules.length := hlen
        have hpos : 1 ≤ g0.rules.length := by
          cases hrl : g0.rules with
          | nil =>
            unfold gpc_rule_find at hfound
            rw [hrl] at hfound
            cases hfound
          | cons r rs => simp [hrl]
        have hnpos : 1 ≤ g0.numRules := by omega
        have hdec : dec32 g0.numRules = g0.numRules - 1 :=
          dec32_eq g0.numRules hnpos
        rw [hdec] at hnum2
        have hif : (if idx == ATTR_RULE_INDEX then (0 : Nat) else 1) = 1 := by
          simp [hidx]
        rw [hif]
        obtain ⟨g1, hgg, hinv1, heq⟩ := ih (step s (Ev.ruleDel idx)) _
          hstep hok2 (by rw [hnum2]; omega) (by rw [hnum2]; omega)
        rw [hnum2] at heq
        exact ⟨g1, hgg, hinv1, by omega⟩
    | grpRemove => cases hok1
    | commit => cases hok1

/-! ### Counter reference counting -/

/-- `uint16_t` decrement (`--eark->eark_refcount`): wraps to `UINT16_MAX`
at zero, otherwise subtracts one. -/
def dec16 (n : Nat) : Nat := if n = 0 then 65535 else n - 1

/-- `pmf_arlg_find_cntr` (source lines 171-181): linear scan of the group's
counter list by name. -/
def pmf_arlg_find_cntr (cs : List GpcCntr) (nm : String) : Option GpcCntr :=
  cs.find? (fun c => c.name == nm)

/-- `pmf_arlg_cntr_refcount_dec` (source lines 188-199): decrement the
user count and report whether users remain (`--eark->eark_refcount > 0`). -/
def pmf_arlg_cntr_refcount_dec (c : GpcCntr) : GpcCntr × Bool :=
  let r := dec16 c.refcount
  ({ c with refcount := r }, decide (0 < r))

/-- The decrement-and-free tail of `pmf_arlg_hw_ntfy_cntr_del` (source
lines 358-377) acting on the owning group's counter list: decrement the
reference count; while users remain the counter stays linked; at zero the
counter is removed from hardware if it was low-level-created, then unlinked
and freed.  Returns the updated list, whether the counter is still
referenced, and the hardware notifications issued. -/
def cntr_del_release (cs : List GpcCntr) (nm : String) :
    List GpcCntr × Bool × List HwEv :=
  match pmf_arlg_find_cntr cs nm with
  | none => (cs, false, [])
  | some c =>
    let dr := pmf_arlg_cntr_refcount_dec c
    if dr.2 then (cntrUpdFirst cs nm (fun _ => dr.1), true, [])
    else (cntrRemoveFirst cs nm, false,
      if c.llCreated then [HwEv.cntrDelete nm] else [])

/-- The counter list after `k` release calls on the named counter. -/
def releaseIter (cs : List GpcCntr) (nm : String) : Nat → List GpcCntr
  | 0 => cs
  | k + 1 => (cntr_del_release (releaseIter cs nm k) nm).1

theorem find_cntr_upd (cs : List GpcCntr) (nm : String)
    (f : GpcCntr → GpcCntr) (c : GpcCntr)
    (hfind : pmf_arlg_find_cntr cs nm = some c)
    (hname : ((f c).name == nm) = true) :
    pmf_arlg_find_cntr (cntrUpdFirst cs nm f) nm = some (f c) := by
  induction cs with
  | nil => cases hfind
  | cons a t ih =>
    unfold cntrUpdFirst
    by_cases ha : (a.name == nm) = true
    · rw [if_pos ha]
      have e1 : pmf_arlg_find_cntr (a :: t) nm = some a := by
        unfold pmf_arlg_find_cntr
        exact List.find?_cons_of_pos t ha
      rw [e1] at hfind
      injection hfind with hac
      subst hac
      unfold pmf_arlg_find_cntr
      exact List.find?_cons_of_pos t hname
    · rw [if_neg ha]
      have e1 : pmf_arlg_find_cntr (a :: t) nm
          = pmf_arlg_find_cntr t nm := by
        unfold pmf_arlg_find_cntr
        exact List.find?_cons_of_neg t ha
      rw [e1] at hfind
      have e2 : pmf_arlg_find_cntr (a :: cntrUpdFirst t nm f) nm
          = pmf_arlg_find_cntr (cntrUpdFirst t nm f) nm := by
        unfold pmf_arlg_find_cntr
        exact List.find?_cons_of_neg _ ha
      rw [e2]
      exact ih hfind

theorem count_cntr_upd (cs : List GpcCntr) (nm : String)
    (f : GpcCntr → GpcCntr)
    (hname : ∀ x, (x.name == nm) = true → ((f x).name == nm) = true) :
    (cntrUpdFirst cs nm f).countP (fun x => x.name == nm)
      = cs.countP (fun x => x.name == nm) := by
  induction cs with
  | nil => rfl
  | cons a t ih =>
    unfold cntrUpdFirst
    by_cases ha : (a.name == nm) = true
    · rw [if_pos ha]
      have e1 : (f a :: t).countP (fun x => x.name == nm)
          = t.countP (fun x => x.name == nm) + 1 :=
        List.countP_cons_of_pos _ t (hname a ha)
      have e2 : (a :: t).countP (fun x => x.name == nm)
          = t.countP (fun x => x.name == nm) + 1 :=
        List.countP_cons_of_pos _ t ha
      rw [e1, e2]
    · rw [if_neg ha]
      have ha2 : ¬((fun x : GpcCntr => x.name == nm) a = true) := ha
      have e1 : (a :: cntrUpdFirst t nm f).countP (fun x => x.name == nm)
          = (cntrUpdFirst t nm f).countP (fun x => x.name == nm) :=
        List.countP_cons_of_neg _ _ ha2
      have e2 : (a :: t).countP (fun x => x.name == nm)
          = t.countP (fun x => x.name == nm) :=
        List.countP_cons_of_neg _ _ ha2
      rw [e1, e2]
      exact ih

theorem find_cntr_remove_none (cs : List GpcCntr) (nm : String)
    (huniq : cs.countP (fun x => x.name == nm) ≤ 1) :
    pmf_arlg_find_cntr (cntrRemoveFirst cs nm) nm = none := by
  induction cs with
  | nil => rfl
  | cons a t ih =>
    unfold cntrRemoveFirst
    by_cases ha : (a.name == nm) = true
    · rw [if_pos ha]
      have e1 : (a :: t).countP (fun x => x.name == nm)
          = t.countP (fun x => x.name == nm) + 1 :=
        List.countP_cons_of_pos _ t ha
      rw [e1] at huniq
      have hz : t.countP (fun x => x.name == nm) = 0 := by omega
      unfold pmf_arlg_find_cntr
      rw [List.find?_eq_none]
      intro x hx
      have := List.countP_eq_zero.mp hz x hx
      simpa using this
    · rw [if_neg ha]
      have ha2 : ¬((fun x : GpcCntr => x.name == nm) a = true) := ha
      have e1 : (a :: t).countP (fun x => x.name == nm)
          = t.countP (fun x => x.name == nm) :=
        List.countP_cons_of_neg _ _ ha2
      rw [e1] at huniq
      have e2 : pmf_arlg_find_cntr (a :: cntrRemoveFirst t nm) nm
          = pmf_arlg_find_cntr (cntrRemoveFirst t nm) nm := by
        unfold pmf_arlg_find_cntr
        exact List.find?_cons_of_neg _ ha
      rw [e2]
      exact ih huniq

theorem find_cntr_name (cs : List GpcCntr) (nm : String) (c : GpcCntr)
    (hfind : pmf_arlg_find_cntr cs nm = some c) : c.name = nm := by
  have := List.find?_some hfind
  simpa using this

theorem release_step (cs : List GpcCntr) (nm : String) (c : GpcCntr)
    (hfind : pmf_arlg_find_cntr cs nm = some c) (h2 : 2 ≤ c.refcount) :
    (cntr_del_release cs nm).2.1 = true ∧
    (cntr_del_release cs nm).1
      = cntrUpdFirst cs nm (fun _ => { c with refcount := c.refcount - 1 }) ∧
    (cntr_del_release cs nm).2.2 = [] := by
  unfold cntr_del_release
  rw [hfind]
  have hdec : dec16 c.refcount = c.refcount - 1 := by
    unfold dec16
    rw [if_neg (by omega)]
  have hpos : (0 < dec16 c.refcount) := by omega
  unfold pmf_arlg_cntr_refcount_dec
  dsimp only
  rw [if_pos (by simpa using hpos)]
  refine ⟨rfl, ?_, rfl⟩
  rw [hdec]

theorem release_last (cs : List GpcCntr) (nm : String) (c : GpcCntr)
    (hfind : pmf_arlg_find_cntr cs nm = some c) (h1 : c.refcount = 1) :
    (cntr_del_release cs nm).2.1 = false ∧
    (cntr_del_release cs nm).1 = cntrRemoveFirst cs nm ∧
    (cntr_del_release cs nm).2.2
      = (if c.llCreated then [HwEv.cntrDelete nm] else []) := by
  unfold cntr_del_release
  rw [hfind]
  have hdec : dec16 c.refcount = 0 := by
    unfold dec16
    rw [if_neg (by omega), h1]
  unfold pmf_arlg_cntr_refcount_dec
  dsimp only
  rw [if_neg (by simp [hdec])]
  exact ⟨rfl, rfl, rfl⟩

theorem releaseIter_spec (cs : List GpcCntr) (nm : String) (c : GpcCntr)
    (hfind : pmf_arlg_find_cntr cs nm = some c)
    (huniq : cs.countP (fun x => x.name == nm) ≤ 1) :
    ∀ k, k ≤ c.refcount - 1 →
      pmf_arlg_find_cntr (releaseIter cs nm k) nm
        = some { c with refcount := c.refcount - k } ∧
      (releaseIter cs nm k).countP (fun x => x.name == nm) ≤ 1 := by
  intro k
  induction k with
  | zero =>
    intro _
    constructor
    · show pmf_arlg_find_cntr cs nm = _
      rw [hfind, Nat.sub_zero]
    · exact huniq
  | succ k ih =>
    intro hk
    obtain ⟨hfk, huk⟩ := ih (by omega)
    have hrc : 2 ≤ ({ c with refcount := c.refcount - k } : GpcCntr).refcount :=
      by show 2 ≤ c.refcount - k; omega
    obtain ⟨_, hupd, _⟩ := release_step (releaseIter cs nm k) nm
      { c with refcount := c.refcount - k } hfk hrc
    have hname : (({ c with refcount := c.refcount - k } : GpcCntr).name == nm)
        = true := by
      have := find_cntr_name cs nm c hfind
      simp [this]
    constructor
    · show pmf_arlg_find_cntr (cntr_del_release (releaseIter cs nm k) nm).1 nm
        = _
      rw [hupd]
      have := find_cntr_upd (releaseIter cs nm k) nm
        (fun _ => { c with refcount := c.refcount - k - 1 })
        { c with refcount := c.refcount - k } hfk (by simpa using hname)
      rw [show c.refcount - (k + 1) = c.refcount - k - 1 by omega]
      rw [show (fun _ : GpcCntr => ({ c with refcount := c.refcount - k - 1 }
        : GpcCntr)) = (fun _ : GpcCntr =>
          ({ { c with refcount := c.refcount - k } with
            refcount := ({ c with refcount := c.refcount - k }
              : GpcCntr).refcount - 1 } : GpcCntr)) from rfl] at this
      exact this
    · show (cntr_del_release (releaseIter cs nm k) nm).1.countP
        (fun x => x.name == nm) ≤ 1
      rw [hupd]
      rw [count_cntr_upd _ nm _ (fun x _ => by simpa using hname)]
      exact huk

/-! ### Op-mode commands: show / clear counters -/

/-- A counter as the op-mode commands see it (`struct pmf_cntr`): name,
published and packet/byte-count flags, and whether a hardware clear of it
succeeds (`pmf_hw_counter_clear`). -/
structure OCntr : Type where
  name : String
  published : Bool
  cntPacket : Bool
  cntByte : Bool
  clearOk : Bool
  deriving DecidableEq, Repr

/-- A group (TABLE) as the op-mode commands see it: its name, whether its
feature is `GPC_FEAT_ACL`, and its counters. -/
structure OGroup : Type where
  name : String
  isAcl : Bool
  cntrs : List OCntr
  deriving DecidableEq, Repr

/-- An attached ruleset as the op-mode commands see it: interface name,
whether the live interface pointer is bound, direction, and its groups. -/
structure ORlset : Type where
  ifname : String
  hasIfp : Bool
  ingress : Bool
  groups : List OGroup
  deriving DecidableEq, Repr

/-- The ruleset-level `continue` conditions of the op-mode loops (source
lines 1606-1619 and 1678-1689): skip rulesets without an interface, apply
the interface-name filter, and apply the direction filter. -/
def matchRlset (ifname : Option String) (dir : Int) (rs : ORlset) : Bool :=
  rs.hasIfp &&
    (match ifname with
     | some nm => nm == rs.ifname
     | none => true) &&
    !(decide (dir < 0) && !rs.ingress) &&
    !(decide (dir > 0) && rs.ingress)

/-- The group-level `continue` conditions: only ACL-feature groups, with
the group-name filter applied. -/
def matchGroup (rgname : Option String) (g : OGroup) : Bool :=
  g.isAcl &&
    (match rgname with
     | some nm => nm == g.name
     | none => true)

/-- The counter loop of `pmf_arlg_cmd_clear_counters` (source lines
1703-1710): skip unpublished counters, request a hardware clear of the
rest, and latch `-EIO` on any failure. -/
def clearCntrFold (rc : Int) (c : OCntr) : Int :=
  if !c.published then rc
  else if !c.clearOk then -5 else rc

/-- The group loop of `pmf_arlg_cmd_clear_counters`. -/
def clearGroupFold (rgname : Option String) (rc : Int) (g : OGroup) : Int :=
  if !matchGroup rgname g then rc
  else g.cntrs.foldl clearCntrFold rc

/-- The ruleset loop of `pmf_arlg_cmd_clear_counters`. -/
def clearRlsetFold (ifname : Option String) (dir : Int)
    (rgname : Option String) (rc : Int) (rs : ORlset) : Int :=
  if !matchRlset ifname dir rs then rc
  else rs.groups.foldl (clearGroupFold rgname) rc

/-- `pmf_arlg_cmd_clear_counters` (source lines 1666-1717): enforce the
filter hierarchy (no direction filter without an interface filter, no
group-name filter without a direction filter), then walk rulesets, groups
and counters requesting a hardware clear of every published counter that
passes the filters; returns 0 on success, `-EIO` (−5) if any individual
clear failed. -/
def pmf_arlg_cmd_clear_counters (rls : List ORlset) (ifname : Option String)
    (dir : Int) (rgname : Option String) : Int :=
  let dir := if ifname.isNone then 0 else dir
  let rgname := if dir = 0 then none else rgname
  rls.foldl (clearRlsetFold ifname dir rgname) 0

/-- `pmf_arlg_cmd_show_counters` (source lines 1588-1662): the same walk
with the same filter hierarchy, writing JSON — modelled as one entry per
surviving ruleset holding its surviving groups and their published
counters. -/
def pmf_arlg_cmd_show_counters (rls : List ORlset) (ifname : Option String)
    (dir : Int) (rgname : Option String) :
    List (String × List (String × List OCntr)) :=
  let dir := if ifname.isNone then 0 else dir
  let rgname := if dir = 0 then none else rgname
  (rls.filter (matchRlset ifname dir)).map (fun rs =>
    (rs.ifname,
      (rs.groups.filter (matchGroup rgname)).map (fun g =>
        (g.name, g.cntrs.filter (fun c => c.published)))))

/-- The published counters that pass the (hierarchy-adjusted) filters: the
counters whose hardware clear the clear command requests. -/
def clearMatched (rls : List ORlset) (ifname : Option String) (dir : Int)
    (rgname : Option String) : List OCntr :=
  let dir := if ifname.isNone then 0 else dir
  let rgname := if dir = 0 then none else rgname
  (rls.filter (matchRlset ifname dir)).flatMap (fun rs =>
    (rs.groups.filter (matchGroup rgname)).flatMap (fun g =>
      g.cntrs.filter (fun c => c.published)))

theorem all_filter_bool {α : Type} (p q : α → Bool) (l : List α) :
    (l.filter p).all q = l.all (fun a => !p a || q a) := by
  induction l with
  | nil => rfl
  | cons a t ih =>
    by_cases hp : p a = true
    · simp [List.filter_cons, hp, ih]
    · simp [List.filter_cons, hp, ih, Bool.eq_false_iff.mpr hp]

theorem all_flatMap_bool {α β : Type} (f : α → List β) (q : β → Bool)
    (l : List α) :
    (l.flatMap f).all q = l.all (fun a => (f a).all q) := by
  induction l with
  | nil => rfl
  | cons a t ih => simp [List.flatMap_cons, List.all_append, ih]

theorem clearCntrFold_chr (cs : List OCntr) : ∀ rc : Int,
    cs.foldl clearCntrFold rc
      = if (cs.filter (fun c => c.published)).all (fun c => c.clearOk)
        then rc else -5 := by
  induction cs with
  | nil => intro rc; simp
  | cons a t ih =>
    intro rc
    rw [List.foldl_cons]
    by_cases hp : a.published = true
    · by_cases hok : a.clearOk = true
      · have hstep : clearCntrFold rc a = rc := by
          simp [clearCntrFold, hp, hok]
        rw [hstep, ih rc]
        simp [List.filter_cons, hp, hok]
      · have hstep : clearCntrFold rc a = -5 := by
          simp [clearCntrFold, hp, hok]
        rw [hstep, ih (-5)]
        simp [List.filter_cons, hp, hok, ite_self]
    · have hstep : clearCntrFold rc a = rc := by
        simp [clearCntrFold, hp]
      rw [hstep, ih rc]
      simp [List.filter_cons, hp]

theorem clearGroupFold_chr (rgname : Option String) (gs : List OGroup) :
    ∀ rc : Int,
    gs.foldl (clearGroupFold rgname) rc
      = if gs.all (fun g => !matchGroup rgname g ||
          (g.cntrs.filter (fun c => c.published)).all (fun c => c.clearOk))
        then rc else -5 := by
  induction gs with
  | nil => intro rc; simp
  | cons a t ih =>
    intro rc
    rw [List.foldl_cons]
    by_cases hm : matchGroup rgname a = true
    · have hstep : clearGroupFold rgname rc a
          = a.cntrs.foldl clearCntrFold rc := by
        simp [clearGroupFold, hm]
      rw [hstep, clearCntrFold_chr]
      by_cases hA : (a.cntrs.filter (fun c => c.published)).all
          (fun c => c.clearOk) = true
      · rw [if_pos hA, ih rc, List.all_cons, hm, hA]
        simp only [Bool.not_true, Bool.false_or, Bool.true_and]
      · have hA2 : (a.cntrs.filter (fun c => c.published)).all
            (fun c => c.clearOk) = false := by simpa using hA
        rw [if_neg (by rw [hA2]; exact Bool.false_ne_true), ih (-5),
          ite_self, List.all_cons, hm, hA2]
        simp
    · have hm2 : matchGroup rgname a = false := by simpa using hm
      have hstep : clearGroupFold rgname rc a = rc := by
        simp [clearGroupFold, hm2]
      rw [hstep, ih rc, List.all_cons, hm2]
      simp only [Bool.not_false, Bool.true_or, Bool.true_and]

theorem clearRlsetFold_chr (ifname : Option String) (dir : Int)
    (rgname : Option String) (rss : List ORlset) : ∀ rc : Int,
    rss.foldl (clearRlsetFold ifname dir rgname) rc
      = if rss.all (fun rs => !matchRlset ifname dir rs ||
          rs.groups.all (fun g => !matchGroup rgname g ||
            (g.cntrs.filter (fun c => c.published)).all
              (fun c => c.clearOk)))
        then rc else -5 := by
  induction rss with
  | nil => intro rc; simp
  | cons a t ih =>
    intro rc
    rw [List.foldl_cons]
    by_cases hm : matchRlset ifname dir a = true
    · have hstep : clearRlsetFold ifname dir rgname rc a
          = a.groups.foldl (clearGroupFold rgname) rc := by
        simp [clearRlsetFold, hm]
      rw [hstep, clearGroupFold_chr]
      by_cases hA : a.groups.all (fun g => !matchGroup rgname g ||
          (g.cntrs.filter (fun c => c.published)).all
            (fun c => c.clearOk)) = true
      · rw [if_pos hA, ih rc, List.all_cons, hm, hA]
        simp only [Bool.not_true, Bool.false_or, Bool.true_and]
      · have hA2 : a.groups.all (fun g => !matchGroup rgname g ||
            (g.cntrs.filter (fun c => c.published)).all
              (fun c => c.clearOk)) = false := by simpa using hA
        rw [if_neg (by rw [hA2]; exact Bool.false_ne_true), ih (-5),
          ite_self, List.all_cons, hm, hA2]
        simp
    · have hm2 : matchRlset ifname dir a = false := by simpa using hm
      have hstep : clearRlsetFold ifname dir rgname rc a = rc := by
        simp [clearRlsetFold, hm2]
      rw [hstep, ih rc, List.all_cons, hm2]
      simp only [Bool.not_false, Bool.true_or, Bool.true_and]

theorem matchRlset_hasIfp (ifname : Option String) (dir : Int) (rs : ORlset)
    (h : rs.hasIfp = false) : matchRlset ifname dir rs = false := by
  simp [matchRlset, h]

theorem filter_match_hasIfp (ifname : Option String) (dir : Int)
    (l : List ORlset) :
    (l.filter (fun rs => rs.hasIfp)).filter (matchRlset ifname dir)
      = l.filter (matchRlset ifname dir) := by
  induction l with
  | nil => rfl
  | cons a t ih =>
    by_cases h : a.hasIfp = true
    · simp [List.filter_cons, h, ih]
    · have h2 : a.hasIfp = false := by simpa using h
      have hm := matchRlset_hasIfp ifname dir a h2
      simp [List.filter_cons, h, hm, ih]

theorem clear_foldl_hasIfp (ifname : Option String) (dir : Int)
    (rgname : Option String) (l : List ORlset) : ∀ rc : Int,
    (l.filter (fun rs => rs.hasIfp)).foldl
        (clearRlsetFold ifname dir rgname) rc
      = l.foldl (clearRlsetFold ifname dir rgname) rc := by
  induction l with
  | nil => intro rc; rfl
  | cons a t ih =>
    intro rc
    by_cases h : a.hasIfp = true
    · simp only [List.filter_cons, h, if_true]
      rw [List.foldl_cons, List.foldl_cons]
      exact ih _
    · have h2 : a.hasIfp = false := by simpa using h
      have hm := matchRlset_hasIfp ifname dir a h2
      have hstep : clearRlsetFold ifname dir rgname rc a = rc := by
        simp [clearRlsetFold, hm]
      simp only [List.filter_cons, h]
      rw [List.foldl_cons, hstep]
      exact ih rc

/-- The fields of `struct pmf_cntr` that the object-id accessor reads. -/
structure PmfCntrObj : Type where
  objid : Nat
  deriving DecidableEq, Repr

/-- `gpc_cntr_old_get_objid` (source lines 76-84): a null counter pointer
yields 0; otherwise the stored object id. -/
def gpc_cntr_old_get_objid (ark : Option PmfCntrObj) : Nat :=
  match ark with
  | none => 0
  | some eark => eark.objid

/-! ### The claims -/

/-- C1: the spec claims `published == true` iff the group holds an attribute
rule with an address family.  Corrected: only the forward direction's family
half survives (a published group always records an address family), together
with the reconciler facts that removing the attribute rule, or its address
family, while the attribute-rule flag is set drives `published` to false.
The full biconditional fails in both directions (see the counterexample):
deferred publication leaves a family-bearing attribute rule unpublished, and
the family-change path clears the attribute-rule flag so that a later
attribute-rule delete skips the teardown, leaving a published group with no
attribute rule. -/
theorem c1_published_implies_family (ifc ifp : Bool) (evs : List Ev)
    (g : GState) (hg : (runEvs (initSys ifc ifp) evs).grp = some g)
    (hp : g.published = true) :
    g.family.isSome = true ∧
    (∀ ctx t, t.g.attrFlag = true →
      (pmf_arlg_rl_attr_check ctx none t).g.published = false) ∧
    (∀ ctx rule t, t.g.attrFlag = true → rule.ipfam = none →
      t.g.family.isSome = true →
      (pmf_arlg_rl_attr_check ctx (some rule) t).g.published = false) := by
  refine ⟨runEvs_pubFam (initSys ifc ifp) evs (initSys_pubFam ifc ifp) g hg hp,
    ?_, ?_⟩
  · intro ctx t hf
    rw [attr_check_none_flag ctx t hf]
    exact (unpublish_group_spec t).1
  · intro ctx rule t hf hip hfam
    rw [attr_check_nofam_flag ctx rule t hf hip, if_pos hfam]
    exact (unpublish_group_spec t).1

theorem c1_witness :
    gAfterAttrAdd.family.isSome = true ∧
    (∀ ctx t, t.g.attrFlag = true →
      (pmf_arlg_rl_attr_check ctx none t).g.published = false) ∧
    (∀ ctx rule t, t.g.attrFlag = true → rule.ipfam = none →
      t.g.family.isSome = true →
      (pmf_arlg_rl_attr_check ctx (some rule) t).g.published = false) :=
  c1_published_implies_family true true [Ev.ruleAdd arV4 ATTR_RULE_INDEX]
    gAfterAttrAdd (by decide) rfl

theorem c1_counterexample :
    ((runEvs (initSys true true) [Ev.ruleAdd arV4 ATTR_RULE_INDEX,
        Ev.ruleChg arV6 ATTR_RULE_INDEX, Ev.ruleDel ATTR_RULE_INDEX]).grp.map
      (fun g => (g.published, g.attrRule)) = some (true, none)) ∧
    ((runEvs (initSys false true) [Ev.ruleAdd arV4 ATTR_RULE_INDEX]).grp.map
      (fun g => (g.published, g.attrRule.map (fun r => r.ipfam.isSome)))
      = some (false, some true)) := by
  decide

/-- C2: both the group-removal handler and the unpublish transition of a
published group issue their hardware notifications in dependency order:
group detach first, then rule deletions, then counter deletions, and the
group-delete notification last. -/
theorem c2_teardown_ordering (s : GRun) :
    (∃ l, (pmf_arlg_grp_remove s).evs = s.evs ++ l ∧ TeardownOrdered l) ∧
    (s.g.published = true →
      ∃ l, (pmf_arlg_unpublish_group s).evs = s.evs ++ l ∧
        TeardownOrdered l) :=
  ⟨grp_remove_evs s, fun hp => unpublish_group_evs s hp⟩

/-- C3: deleting the attribute rule of a published group tears it down:
the group becomes unpublished, is marked for deferred republish (raising the
global deferrals flag), the recorded family and the attribute-rule flag are
cleared, the attribute rule is freed and the counter group fully torn down;
the appended notifications are the teardown sequence (detach, rule deletes,
counter deletes, group delete) followed only by counter releases.
Corrected: this additionally requires the attribute-rule flag to be set —
after a v4/v6 family change the code has cleared the flag, and the delete
then skips the teardown entirely (see the counterexample). -/
theorem c3_attr_rule_delete_teardown (ctx : Ctx) (s : GRun)
    (hp : s.g.published = true) (hf : s.g.attrFlag = true)
    (ha : s.g.attrRule.isSome = true) :
    (pmf_arlg_rl_del ctx ATTR_RULE_INDEX s).2 = true ∧
    (pmf_arlg_rl_del ctx ATTR_RULE_INDEX s).1.g.published = false ∧
    (pmf_arlg_rl_del ctx ATTR_RULE_INDEX s).1.g.deferred = true ∧
    (pmf_arlg_rl_del ctx ATTR_RULE_INDEX s).1.defr = true ∧
    (pmf_arlg_rl_del ctx ATTR_RULE_INDEX s).1.g.family = none ∧
    (pmf_arlg_rl_del ctx ATTR_RULE_INDEX s).1.g.attrFlag = false ∧
    (pmf_arlg_rl_del ctx ATTR_RULE_INDEX s).1.g.attrRule = none ∧
    (pmf_arlg_rl_del ctx ATTR_RULE_INDEX s).1.g.cntg = none ∧
    ∃ l0 l1 l2 l3 l4,
      (pmf_arlg_rl_del ctx ATTR_RULE_INDEX s).1.evs
        = s.evs ++ (l0 ++ l1 ++ l2 ++ l3 ++ l4) ∧
      (∀ e ∈ l0, e = HwEv.grpDetach) ∧
      (∀ e ∈ l1, ∃ i, e = HwEv.ruleDelete i) ∧
      (∀ e ∈ l2, ∃ nm, e = HwEv.cntrDelete nm) ∧
      (∀ e ∈ l3, e = HwEv.grpDelete) ∧
      (∀ e ∈ l4, ∃ nm, e = HwEv.cntrDelete nm) := by
  have hac : pmf_arlg_rl_attr_check ctx none s = pmf_arlg_unpublish_group s :=
    attr_check_none_flag ctx s hf
  obtain ⟨u1, u2, u3, _, _, _, _, u8, u9⟩ := unpublish_group_spec s
  rw [hp, if_pos rfl] at u8 u9
  obtain ⟨lu, hlu, l0, l1, l2, l3, hsplit, k0, k1, k2, k3⟩ :=
    unpublish_group_evs s hp
  unfold pmf_arlg_rl_del
  split
  · split
    · next heq => rw [heq] at ha; cases ha
    · next ar heq =>
      dsimp only
      rw [hac]
      split
      · next cg heqc =>
        have hfr := delete_cntg_frame
          { pmf_arlg_unpublish_group s with g :=
            { (pmf_arlg_unpublish_group s).g with attrRule := none } }
        obtain ⟨fp, ff, fa, far, _, _, _, fd, fdr⟩ := hfr
        obtain ⟨l4, hl4, k4⟩ := delete_cntg_evs
          { pmf_arlg_unpublish_group s with g :=
            { (pmf_arlg_unpublish_group s).g with attrRule := none } }
        refine ⟨rfl, ?_, ?_, ?_, ?_, ?_, ?_, rfl, ?_⟩
        · exact fp.trans u1
        · exact fd.trans u8
        · exact fdr.trans u9
        · exact ff.trans u3
        · exact fa.trans u2
        · exact far
        · refine ⟨l0, l1, l2, l3, l4, ?_, k0, k1, k2, k3, k4⟩
          show (pmf_arlg_rule_delete_cntg _).evs = _
          rw [hl4]
          show (pmf_arlg_unpublish_group s).evs ++ l4 = _
          rw [hlu, hsplit]
          simp [List.append_assoc]
      · next heqc =>
        refine ⟨rfl, u1, u8, u9, u3, u2, rfl, heqc, ?_⟩
        refine ⟨l0, l1, l2, l3, [], ?_, k0, k1, k2, k3, by simp⟩
        show (pmf_arlg_unpublish_group s).evs = _
        rw [hlu, hsplit]
        simp [List.append_assoc]
  · next hne => exact absurd rfl hne

theorem c3_witness :
    (pmf_arlg_rl_del ⟨true, true⟩ ATTR_RULE_INDEX sAttrAdded).2 = true ∧
    (pmf_arlg_rl_del ⟨true, true⟩ ATTR_RULE_INDEX sAttrAdded).1.g.published
      = false ∧
    (pmf_arlg_rl_del ⟨true, true⟩ ATTR_RULE_INDEX sAttrAdded).1.g.deferred
      = true ∧
    (pmf_arlg_rl_del ⟨true, true⟩ ATTR_RULE_INDEX sAttrAdded).1.defr = true ∧
    (pmf_arlg_rl_del ⟨true, true⟩ ATTR_RULE_INDEX sAttrAdded).1.g.family
      = none ∧
    (pmf_arlg_rl_del ⟨true, true⟩ ATTR_RULE_INDEX sAttrAdded).1.g.attrFlag
      = false ∧
    (pmf_arlg_rl_del ⟨true, true⟩ ATTR_RULE_INDEX sAttrAdded).1.g.attrRule
      = none ∧
    (pmf_arlg_rl_del ⟨true, true⟩ ATTR_RULE_INDEX sAttrAdded).1.g.cntg
      = none ∧
    ∃ l0 l1 l2 l3 l4,
      (pmf_arlg_rl_del ⟨true, true⟩ ATTR_RULE_INDEX sAttrAdded).1.evs
        = sAttrAdded.evs ++ (l0 ++ l1 ++ l2 ++ l3 ++ l4) ∧
      (∀ e ∈ l0, e = HwEv.grpDetach) ∧
      (∀ e ∈ l1, ∃ i, e = HwEv.ruleDelete i) ∧
      (∀ e ∈ l2, ∃ nm, e = HwEv.cntrDelete nm) ∧
      (∀ e ∈ l3, e = HwEv.grpDelete) ∧
      (∀ e ∈ l4, ∃ nm, e = HwEv.cntrDelete nm) :=
  c3_attr_rule_delete_teardown ⟨true, true⟩ sAttrAdded rfl rfl rfl

theorem c3_counterexample :
    ((runEvs (initSys true true) [Ev.ruleAdd arV4 ATTR_RULE_INDEX,
        Ev.ruleChg arV6 ATTR_RULE_INDEX]).grp.map
      (fun g => (g.published, g.attrRule.isSome, g.family))
      = some (true, true, some true)) ∧
    ((runEvs (initSys true true) [Ev.ruleAdd arV4 ATTR_RULE_INDEX,
        Ev.ruleChg arV6 ATTR_RULE_INDEX, Ev.ruleDel ATTR_RULE_INDEX]).grp.map
      (fun g => g.published) = some true) := by
  decide

/-- C4: the claim says the family-change path never clears the
attribute-rule flag.  The code does clear it (`pmf_att_rlgrp.c:719`) and the
`goto publish_group` target lies after the flag-set line, so the flag stays
cleared: after adding an IPv4 attribute rule the flag is set, and after
changing the rule to IPv6 the group is republished under the new family with
the flag now clear. -/
theorem c4_family_change_clears_flag :
    ((runEvs (initSys true true) [Ev.ruleAdd arV4 ATTR_RULE_INDEX]).grp.map
      (fun g => (g.published, g.attrFlag, g.family))
      = some (true, true, some false)) ∧
    ((runEvs (initSys true true) [Ev.ruleAdd arV4 ATTR_RULE_INDEX,
        Ev.ruleChg arV6 ATTR_RULE_INDEX]).grp.map
      (fun g => (g.published, g.attrFlag, g.family))
      = some (true, false, some true)) := by
  decide

/-- C5: the spec claims the rule count always equals non-attribute Adds
minus non-attribute Deletes.  Corrected: that requires every non-attribute
Delete to find its target (the source returns `-ENOENT` without
decrementing otherwise — see the counterexample, where a Delete of a
missing rule leaves the count at 0 while Adds − Deletes would be −1), and
fewer than 2^32 Adds (the count is a `uint32_t`).  Under those conditions
the count plus the Delete count equals the Add count at every point, so the
count is exactly Adds − Deletes and never goes negative. -/
theorem c5_rule_count (ifc ifp : Bool) (evs : List Ev)
    (hok : ruleEvsOk (initSys ifc ifp) evs = true)
    (hbound : nonAttrAdds evs ≤ 4294967295) :
    ∃ g, (runEvs (initSys ifc ifp) evs).grp = some g ∧
      g.numRules + nonAttrDels evs = nonAttrAdds evs ∧
      nonAttrDels evs ≤ nonAttrAdds evs := by
  obtain ⟨g1, hgg, _, heq⟩ := c5_aux evs (initSys ifc ifp)
    (GState.mk false false true false none false none 0 [] none) rfl hok rfl
    (show (0 : Nat) + nonAttrAdds evs ≤ 4294967295 by omega)
  have heq2 : g1.numRules + nonAttrDels evs = 0 + nonAttrAdds evs := heq
  exact ⟨g1, hgg, by omega, by omega⟩

theorem c5_witness :
    ∃ g, (runEvs (initSys true true)
        [Ev.ruleAdd arPlain 5, Ev.ruleDel 5]).grp = some g ∧
      g.numRules + nonAttrDels [Ev.ruleAdd arPlain 5, Ev.ruleDel 5]
        = nonAttrAdds [Ev.ruleAdd arPlain 5, Ev.ruleDel 5] ∧
      nonAttrDels [Ev.ruleAdd arPlain 5, Ev.ruleDel 5]
        ≤ nonAttrAdds [Ev.ruleAdd arPlain 5, Ev.ruleDel 5] :=
  c5_rule_count true true [Ev.ruleAdd arPlain 5, Ev.ruleDel 5]
    (by decide) (by decide)

theorem c5_counterexample :
    ((runEvs (initSys true true) [Ev.ruleDel 5]).grp.map
      (fun g => g.numRules)) = some 0 ∧
    nonAttrAdds [Ev.ruleDel 5] = 0 ∧ nonAttrDels [Ev.ruleDel 5] = 1 := by
  decide

/-- C6: releasing a counter whose reference count is N (at least 1, within
the `uint16_t` range, uniquely named in its group's counter list)
decrements the count on every call; the first N−1 calls report "still
referenced" and leave the counter findable by name with the decremented
count, and the Nth call reports "freed", issues the hardware delete exactly
when the counter was low-level-created, and unlinks it, after which a name
lookup no longer finds it. -/
theorem c6_counter_release (cs : List GpcCntr) (nm : String) (c : GpcCntr)
    (hfind : pmf_arlg_find_cntr cs nm = some c)
    (huniq : cs.countP (fun x => x.name == nm) ≤ 1)
    (hpos : 1 ≤ c.refcount) (hrange : c.refcount ≤ 65535) :
    (∀ k, k + 1 ≤ c.refcount - 1 →
      (cntr_del_release (releaseIter cs nm k) nm).2.1 = true ∧
      pmf_arlg_find_cntr (releaseIter cs nm (k + 1)) nm
        = some { c with refcount := c.refcount - (k + 1) }) ∧
    (cntr_del_release (releaseIter cs nm (c.refcount - 1)) nm).2.1 = false ∧
    (cntr_del_release (releaseIter cs nm (c.refcount - 1)) nm).2.2
      = (if c.llCreated then [HwEv.cntrDelete nm] else []) ∧
    pmf_arlg_find_cntr (releaseIter cs nm c.refcount) nm = none := by
  have hiter := releaseIter_spec cs nm c hfind huniq
  have hlast := hiter (c.refcount - 1) (by omega)
  obtain ⟨hflast, hulast⟩ := hlast
  have h1 : ({ c with refcount := c.refcount - (c.refcount - 1) }
      : GpcCntr).refcount = 1 := by
    show c.refcount - (c.refcount - 1) = 1
    omega
  obtain ⟨hret, hrm, hev⟩ := release_last (releaseIter cs nm (c.refcount - 1))
    nm { c with refcount := c.refcount - (c.refcount - 1) } hflast h1
  refine ⟨?_, hret, hev, ?_⟩
  · intro k hk
    obtain ⟨hfk, _⟩ := hiter k (by omega)
    obtain ⟨hret2, _, _⟩ := release_step (releaseIter cs nm k) nm
      { c with refcount := c.refcount - k } hfk
      (by show 2 ≤ c.refcount - k; omega)
    exact ⟨hret2, (hiter (k + 1) (by omega)).1⟩
  · rw [show c.refcount = (c.refcount - 1) + 1 by omega]
    show pmf_arlg_find_cntr
      (cntr_del_release (releaseIter cs nm (c.refcount - 1)) nm).1 nm = none
    rw [hrm]
    exact find_cntr_remove_none _ nm hulast

/-- A sample counter with two users. -/
def cntrW : GpcCntr :=
  { name := "x", refcount := 2, published := true, llCreated := true }

theorem c6_witness :
    (∀ k, k + 1 ≤ cntrW.refcount - 1 →
      (cntr_del_release (releaseIter [cntrW] "x" k) "x").2.1 = true ∧
      pmf_arlg_find_cntr (releaseIter [cntrW] "x" (k + 1)) "x"
        = some { cntrW with refcount := cntrW.refcount - (k + 1) }) ∧
    (cntr_del_release (releaseIter [cntrW] "x"
      (cntrW.refcount - 1)) "x").2.1 = false ∧
    (cntr_del_release (releaseIter [cntrW] "x" (cntrW.refcount - 1)) "x").2.2
      = (if cntrW.llCreated then [HwEv.cntrDelete "x"] else []) ∧
    pmf_arlg_find_cntr (releaseIter [cntrW] "x" cntrW.refcount) "x" = none :=
  c6_counter_release [cntrW] "x" cntrW (by decide) (by decide) (by decide)
    (by decide)

/-- C7: a commit with no pending deferrals and no queued notifications is a
no-op: nothing is issued to hardware and the state only has its deferrals
and commit-pending flags (re)cleared. -/
theorem c7_commit_noop (s : Sys) (h1 : s.deferrals = false)
    (h2 : s.queue = []) :
    pmf_arlg_commit s
      = { s with deferrals := false, commitPending := false } ∧
    (pmf_arlg_commit s).issued = s.issued := by
  unfold pmf_arlg_commit pmf_hw_commit
  rw [h1]
  constructor
  · simp [h2]
  · simp [h2]

theorem c7_witness :
    pmf_arlg_commit sIdle
      = { sIdle with deferrals := false, commitPending := false } ∧
    (pmf_arlg_commit sIdle).issued = sIdle.issued :=
  c7_commit_noop sIdle rfl rfl

/-- C8: clear-counters enforces the filter hierarchy (a direction filter
is ignored without an interface filter, a group-name filter is ignored
without a direction filter), requests a hardware clear of every published
counter matching the filters, and returns 0 when every individual clear
succeeds and `-EIO` (−5) when any fails — the result being a function of
all matched counters, every one of them is attempted. -/
theorem c8_clear_counters_filters_eio (rls : List ORlset) :
    (∀ ifname dir rgname,
      pmf_arlg_cmd_clear_counters rls ifname dir rgname
        = if (clearMatched rls ifname dir rgname).all (fun c => c.clearOk)
          then 0 else -5) ∧
    (∀ dir rgname, pmf_arlg_cmd_clear_counters rls none dir rgname
      = pmf_arlg_cmd_clear_counters rls none 0 none) ∧
    (∀ ifname rgname, pmf_arlg_cmd_clear_counters rls ifname 0 rgname
      = pmf_arlg_cmd_clear_counters rls ifname 0 none) := by
  refine ⟨?_, fun dir rgname => rfl, ?_⟩
  · intro ifname dir rgname
    unfold pmf_arlg_cmd_clear_counters clearMatched
    dsimp only
    rw [clearRlsetFold_chr]
    simp only [all_flatMap_bool, all_filter_bool]
  · intro ifname rgname
    cases ifname with
    | none => rfl
    | some nm => rfl

/-- C9: a ruleset whose live interface pointer is absent is skipped
entirely by both show-counters and clear-counters: dropping such rulesets
up front changes neither the rendered output nor the returned result, no
matter the interface, direction and group-name filters. -/
theorem c9_skip_rulesets_without_ifp (rls : List ORlset)
    (ifname : Option String) (dir : Int) (rgname : Option String) :
    pmf_arlg_cmd_show_counters rls ifname dir rgname
      = pmf_arlg_cmd_show_counters (rls.filter (fun rs => rs.hasIfp))
          ifname dir rgname ∧
    pmf_arlg_cmd_clear_counters rls ifname dir rgname
      = pmf_arlg_cmd_clear_counters (rls.filter (fun rs => rs.hasIfp))
          ifname dir rgname := by
  constructor
  · unfold pmf_arlg_cmd_show_counters
    dsimp only
    rw [filter_match_hasIfp]
  · unfold pmf_arlg_cmd_clear_counters
    dsimp only
    rw [clear_foldl_hasIfp]

/-- C10: `gpc_cntr_old_get_objid` is total over its pointer argument: a
null counter yields 0 without a dereference, and a non-null counter yields
its stored hardware object id. -/
theorem c10_objid_total :
    gpc_cntr_old_get_objid none = 0 ∧
    ∀ eark, gpc_cntr_old_get_objid (some eark) = eark.objid :=
  ⟨rfl, fun _ => rfl⟩

end PmfArlg
